import Mathlib

/-!
Verification development for the OptiMatch record-reconciliation engine.

The definitions below are a shallow embedding of the engine found in
src/app/api/validate/route.ts and src/lib/dataSource.ts: JavaScript strings
become Lean strings, JS objects become ordered association lists from keys to
a scalar variant (string, number, null/undefined), JS Map becomes an
association list with overwrite-on-set semantics, and the fuzzball
token_set_ratio similarity primitive (an external library dependency) is a
parameter that either returns an integer score or throws (Except).
-/

set_option maxHeartbeats 1000000

namespace OptiMatch

/-- Whitespace recognized by the JavaScript trim operations we model
(space, tab, newline, carriage return, by codepoint). -/
def isWSChar (c : Char) : Bool :=
  c.toNat == 32 || c.toNat == 9 || c.toNat == 10 || c.toNat == 13

/-- ASCII lower-casing of a single character, as String.prototype.toLowerCase
does for the ASCII range used by the engine (codepoints 65-90 shift to
97-122). -/
def charLower (c : Char) : Char :=
  if 65 ≤ c.toNat ∧ c.toNat ≤ 90 then Char.ofNat (c.toNat + 32) else c

/-- Remove leading and trailing whitespace from a character list. -/
def trimCharList (l : List Char) : List Char :=
  ((l.dropWhile isWSChar).reverse.dropWhile isWSChar).reverse

/-- Lower-case every character of a list. -/
def lowerCharList (l : List Char) : List Char := l.map charLower

/-- Model of JavaScript String.prototype.trim. -/
def jsTrim (s : String) : String := String.mk (trimCharList s.data)

/-- Model of JavaScript String.prototype.toLowerCase. -/
def jsToLower (s : String) : String := String.mk (lowerCharList s.data)

/-- Trim then lower-case: the normalization applied to a string value
(String(value).trim().toLowerCase()). -/
def normStr (s : String) : String := jsToLower (jsTrim s)

/-- Whether the first list is an initial segment of the second. -/
def listStarts : List Char → List Char → Bool
  | [], _ => true
  | _ :: _, [] => false
  | p :: ps, c :: cs => p == c && listStarts ps cs

/-- Whether the pattern occurs contiguously inside the list. -/
def hasSub (pat : List Char) : List Char → Bool
  | [] => listStarts pat []
  | c :: cs => listStarts pat (c :: cs) || hasSub pat cs

/-- Whether pat occurs as a contiguous substring of s
(String.prototype.includes). -/
def strContains (s pat : String) : Bool := hasSub pat.data s.data

/-- Model of JavaScript String.prototype.replace with a plain-string pattern:
replaces only the first occurrence, returns the input when there is none. -/
def replaceFirst (pat repl : List Char) : List Char → List Char
  | [] => if listStarts pat [] then repl else []
  | c :: cs =>
      if listStarts pat (c :: cs) then repl ++ (c :: cs).drop pat.length
      else c :: replaceFirst pat repl cs

/-- Model of Array.prototype.join on strings. -/
def joinSep (sep : String) : List String → String
  | [] => ""
  | [x] => x
  | x :: y :: rest => x ++ sep ++ joinSep sep (y :: rest)

/-- A JSON-ish scalar cell value: string, number, or null/undefined (the
engine treats null and undefined identically, and a missing key is modelled
by an absent association-list entry). -/
inductive JValue where
  | str (s : String)
  | num (n : Int)
  | null
  deriving DecidableEq, Repr

/-- A record: an ordered mapping from column-name strings to scalar values,
as produced by the upstream tabular decoder. -/
abbrev Entry := List (String × JValue)

/-- Model of the JavaScript String(value) conversion for non-null values. -/
def jstr : JValue → String
  | .str s => s
  | .num n => toString n
  | .null => "null"

/-- The normalize helper of the route: null/undefined map to the empty
string, anything else is stringified, trimmed, lower-cased. -/
def normalize (v : JValue) : String :=
  match v with
  | .null => ""
  | v => normStr (jstr v)

/-- Lower-case alphanumeric characters, the ones kept by the key
normalization regex [^a-z0-9] applied after lower-casing (codepoints 97-122
and 48-57). -/
def isKeyAlnum (c : Char) : Bool :=
  (97 ≤ c.toNat && c.toNat ≤ 122) || (48 ≤ c.toNat && c.toNat ≤ 57)

/-- Strip leading and trailing underscores (a no-op after the alphanumeric
filter, kept for fidelity with the source's replace chain). -/
def trimUnderscores (l : List Char) : List Char :=
  ((l.dropWhile (· == '_')).reverse.dropWhile (· == '_')).reverse

/-- The synonym folds of the route's normalizeKey, applied in source order,
each replacing only the first occurrence. -/
def synonymFolds : List (List Char × List Char) :=
  [("fullname".data, "name".data), ("beneficiaryname".data, "name".data),
   ("customername".data, "name".data), ("personname".data, "name".data),
   ("nin".data, "nationalid".data), ("ssid".data, "socialsecurity".data),
   ("socialsecurityid".data, "socialsecurity".data), ("ssn".data, "socialsecurity".data)]

/-- Key normalization of the validate route's extractField: lower-case,
strip non-alphanumerics, strip underscores, then apply the synonym folds. -/
def normalizeKey (s : String) : String :=
  String.mk (synonymFolds.foldl (fun acc pr => replaceFirst pr.1 pr.2 acc)
    (trimUnderscores ((lowerCharList s.data).filter isKeyAlnum)))

/-- JS property access entry[key]: keys of a decoded object are unique, so
first match is the value. -/
def entryGet : Entry → String → Option JValue
  | [], _ => none
  | (k, v) :: rest, key => if k = key then some v else entryGet rest key

/-- The guarded read used throughout extractField: the value under key must
exist, be non-null, and have a non-empty trim; the result is normalized. -/
def tryKeyed (entry : Entry) (k : String) : Option String :=
  match entryGet entry k with
  | none => none
  | some .null => none
  | some v =>
      if jsTrim (jstr v) = "" then none else some (normStr (jsTrim (jstr v)))

/-- Insert with overwrite, keeping the original key position (JS object
property assignment / Map.set). -/
def fmSet : List (String × String) → String → String → List (String × String)
  | [], k, v => [(k, v)]
  | (k', v') :: rest, k, v =>
      if k' = k then (k', v) :: rest else (k', v') :: fmSet rest k v

/-- First-match lookup (sufficient because fmSet keeps keys unique). -/
def fmGet : List (String × String) → String → Option String
  | [], _ => none
  | (k', v) :: rest, k => if k' = k then some v else fmGet rest k

/-- The fieldMap built from a header row: normalized header-cell text maps to
the physical column key holding it; later duplicates overwrite. -/
def buildFieldMapAux : List (String × String) → Entry → List (String × String)
  | m, [] => m
  | m, (k, v) :: rest =>
      match v with
      | .null => buildFieldMapAux m rest
      | v =>
          if normalizeKey (jstr v) = "" then buildFieldMapAux m rest
          else buildFieldMapAux (fmSet m (normalizeKey (jstr v)) k) rest

/-- The fieldMap built from a header row: normalized header-cell text maps to
the physical column key holding it; later duplicates overwrite. -/
def buildFieldMap (hr : Entry) : List (String × String) := buildFieldMapAux [] hr

/-- The header-row-guided pass of extractField over the candidate field
names; a falsy (empty) mapped key is skipped as in JS. -/
def extractViaHeader (entry : Entry) (fm : List (String × String)) : List String → Option String
  | [] => none
  | f :: fs =>
      match fmGet fm (normalizeKey f) with
      | some k =>
          if k = "" then extractViaHeader entry fm fs
          else
            match tryKeyed entry k with
            | some r => some r
            | none => extractViaHeader entry fm fs
      | none => extractViaHeader entry fm fs

/-- The normalized-key scan over an entry's own keys for one field name. -/
def scanNormalized (nf : String) : Entry → Option String
  | [] => none
  | (k, v) :: rest =>
      if normalizeKey k = nf ∧ v ≠ JValue.null then
        if jsTrim (jstr v) = "" then scanNormalized nf rest
        else some (normStr (jsTrim (jstr v)))
      else scanNormalized nf rest

/-- The direct pass of extractField: exact key first, then normalized-key
scan, per candidate field name in order. -/
def extractDirect (entry : Entry) : List String → Option String
  | [] => none
  | f :: fs =>
      match tryKeyed entry f with
      | some r => some r
      | none =>
          match scanNormalized (normalizeKey f) entry with
          | some r => some r
          | none => extractDirect entry fs

/-- extractField of the validate route: header-row-guided resolution first
when a header row is available, then the direct resolution; empty string
when nothing resolves. -/
def extractField (entry : Entry) (fields : List String) (hr : Option Entry) : String :=
  match hr with
  | some h =>
      match extractViaHeader entry (buildFieldMap h) fields with
      | some r => r
      | none => (extractDirect entry fields).getD ""
  | none => (extractDirect entry fields).getD ""

/-- The single-column full-name spellings tried first by extractFullName. -/
def fullNameFields : List String :=
  ["FULL NAME", "Full Name", "full name", "name", "Name", "FULLNAME", "FullName",
   "fullname", "Beneficiary Name", "Customer Name", "Person Name"]

/-- extractFullName of the validate route: a single full-name column when
present, otherwise the non-empty first/middle/last parts joined by spaces
and normalized. -/
def extractFullName (entry : Entry) (hr : Option Entry) : String :=
  let single := extractField entry fullNameFields hr
  if single ≠ "" then single
  else
    let fn := extractField entry ["firstname", "first_name", "first"] hr
    let mn := extractField entry ["middlename", "middle_name", "middle"] hr
    let ln := extractField entry ["lastname", "last_name", "last", "surname"] hr
    let parts := [fn, mn, ln].filter (fun p => p ≠ "")
    if parts = [] then "" else normStr (joinSep " " parts)

/-- Raw (non-normalized) keyed read used by safeStringExtract. -/
def rawKeyed (entry : Entry) (k : String) : Option String :=
  match entryGet entry k with
  | none => none
  | some .null => none
  | some v =>
      if jsTrim (jstr v) = "" then none else some (jsTrim (jstr v))

/-- The non-name loop of safeStringExtract. -/
def safeLoop (entry : Entry) : List String → String
  | [] => ""
  | f :: fs =>
      match rawKeyed entry f with
      | some sv => sv
      | none => safeLoop entry fs

/-- safeStringExtract of the validate route: name-ish field lists are routed
through extractFullName; other fields return the first raw trimmed value. -/
def safeStringExtract (entry : Entry) (fields : List String) : String :=
  if fields.any (fun n => strContains (jsToLower n) "name") then extractFullName entry none
  else safeLoop entry fields

/-- The three possible verdicts of the engine. -/
inductive Status where
  | valid
  | invalid
  | partMatch
  deriving DecidableEq, Repr

/-- The ValidationResult record returned by getMatchStatus. -/
structure ValidationResult where
  status : Status
  reason : String
  matchedName : Option String := none
  matchedSSID : Option String := none
  matchedNIN : Option String := none
  similarity : Option Nat := none
  deriving DecidableEq, Repr

/-- The identifier-agreement check of getMatchStatus, used for both SSID and
NIN: both sides empty, or both non-empty and equal. -/
def idAgree (a b : String) : Bool :=
  (a == "" && b == "") || (a != "" && b != "" && a == b)

/-- The similarity threshold constant of the route. -/
def SIMILARITY_THRESHOLD : Nat := 90

/-- The similarity provider: fuzzball's token_set_ratio, which returns an
integer score or throws. -/
abbrev Sim := String → String → Except String Nat

/-- A similarity provider that never throws. -/
def pureSim (f : String → String → Nat) : Sim := fun a b => .ok (f a b)

/-- A source record together with its position in the source array; the
position stands in for JavaScript object identity (each decoded row is a
distinct object, and the indexing maps store references to these rows). -/
abbrev IEntry := Nat × Entry

/-- The index maps (JS Map of normalized identifier to source record). -/
abbrev SMap := List (String × IEntry)

/-- Map.set: overwrite the value when the key exists, append otherwise. -/
def mapSet : SMap → String → IEntry → SMap
  | [], k, v => [(k, v)]
  | (k', v') :: rest, k, v =>
      if k' = k then (k', v) :: rest else (k', v') :: mapSet rest k v

/-- Map.get, as an Option. -/
def mapGet : SMap → String → Option IEntry
  | [], _ => none
  | (k', v) :: rest, k => if k' = k then some v else mapGet rest k

/-- Candidate-side SSID spellings passed by getMatchStatus. -/
def entrySSIDFields : List String :=
  ["SSID", "ssid", "Ssid", "SocialSecurity", "SSN", "Social Security Number",
   "Social Security ID", "__EMPTY_1", "__EMPTY_2", "__EMPTY_3", "__EMPTY_4",
   "__EMPTY_5", "__EMPTY_6"]

/-- Candidate-side NIN spellings passed by getMatchStatus. -/
def entryNINFields : List String :=
  ["NIN", "nin", "Nin", "NationalID", "National ID",
   "National Identification Number", "__EMPTY_1", "__EMPTY_2", "__EMPTY_3",
   "__EMPTY_4", "__EMPTY_5", "__EMPTY_6"]

/-- Source-side SSID spellings used when scoring and classifying. -/
def srcSSIDFields : List String := ["SSID", "ssid", "Ssid"]

/-- Source-side NIN spellings used when scoring and classifying. -/
def srcNINFields : List String := ["NIN", "nin", "Nin"]

/-- SSID spellings used when building the source indices in the handler. -/
def idxSSIDFields : List String := ["SSID", "ssid", "Ssid", "SocialSecurity", "SSN"]

/-- NIN spellings used when building the source indices in the handler. -/
def idxNINFields : List String := ["NIN", "nin", "Nin", "NationalID"]

/-- The per-record score of the best-match loop: the JS loop computes
40 for an SSID hit plus 40 for a NIN hit plus similarity times 0.2 (the
latter only when the record has a resolvable name) and compares scores with
a strict greater-than. We store five times the score, which is an exact
natural number (200 + 200 + similarity) and preserves every comparison the
loop makes: two scores can only be equal when their hit counts and
similarity terms agree, since the similarity contribution is at most 100 of
the scaled 200-point steps. -/
def scoreRecord (sim : Sim) (es en nm : String) (shr : Option Entry) (r : Entry) :
    Except String Nat :=
  let ss := extractField r srcSSIDFields shr
  let sn := extractField r srcNINFields shr
  let srcName := extractFullName r shr
  let base : Nat :=
    (if es ≠ "" ∧ ss ≠ "" ∧ ss = es then 200 else 0) +
    (if en ≠ "" ∧ sn ≠ "" ∧ sn = en then 200 else 0)
  if srcName = "" then .ok base
  else
    match sim nm srcName with
    | .ok v => .ok (base + v)
    | .error m => .error m

/-- The best-match selection loop: best starts at the first gathered record
with best score 0, and a record replaces it only on a strictly higher
score. -/
def chooseBestAux (sim : Sim) (es en nm : String) (shr : Option Entry) :
    List IEntry → IEntry → Nat → Except String IEntry
  | [], best, _ => .ok best
  | r :: rs, best, bs =>
      match scoreRecord sim es en nm shr r.2 with
      | .error m => .error m
      | .ok sc =>
          if bs < sc then chooseBestAux sim es en nm shr rs r sc
          else chooseBestAux sim es en nm shr rs best bs

/-- Best-match selection over the gathered potential matches. -/
def chooseBest (sim : Sim) (es en nm : String) (shr : Option Entry) :
    List IEntry → Except String IEntry
  | [] => .ok (0, [])
  | x :: xs => chooseBestAux sim es en nm shr (x :: xs) x 0

/-- The guarded final similarity computation: a throwing provider falls back
to 100 on exact equality and 0 otherwise (the inner try/catch). -/
def simOrDefault (sim : Sim) (a b : String) : Nat :=
  match sim a b with
  | .ok v => v
  | .error _ => if a = b then 100 else 0

/-- The SSID part of the mismatch list pushed for a Partial Match reason. -/
def ssidMismatchMsgs (es ss : String) : List String :=
  if es ≠ "" ∧ ss ≠ "" then ["SSID mismatch: \"" ++ es ++ "\" vs \"" ++ ss ++ "\""]
  else if es ≠ "" then ["SSID not in records"]
  else if ss ≠ "" then ["Missing SSID (we have: " ++ ss ++ ")"]
  else []

/-- The NIN part of the mismatch list pushed for a Partial Match reason. -/
def ninMismatchMsgs (en sn : String) : List String :=
  if en ≠ "" ∧ sn ≠ "" then ["NIN mismatch: \"" ++ en ++ "\" vs \"" ++ sn ++ "\""]
  else if en ≠ "" then ["NIN not in records"]
  else if sn ≠ "" then ["Missing NIN (we have: " ++ sn ++ ")"]
  else []

/-- The name-similarity mismatch message. -/
def nameMismatchMsg (nameSim : Nat) (nm srcName : String) : String :=
  "Name similarity: " ++ toString nameSim ++ "% (" ++ nm ++ " vs " ++ srcName ++ ")"

/-- Classification of the chosen best match: Invalid when the source record
has no resolvable name, Valid when all three agreement checks hold, Partial
Match otherwise with every failing check recorded in the reason. -/
def classify (sim : Sim) (es en nm : String) (shr : Option Entry) (best : IEntry) :
    ValidationResult :=
  let ss := extractField best.2 srcSSIDFields shr
  let sn := extractField best.2 srcNINFields shr
  let srcName := extractFullName best.2 shr
  if srcName = "" then
    { status := .invalid, reason := "Source record missing name field" }
  else
    let ssidM := idAgree es ss
    let ninM := idAgree en sn
    let nameSim := simOrDefault sim nm srcName
    let nameM : Bool := decide (SIMILARITY_THRESHOLD ≤ nameSim)
    if ssidM && ninM && nameM then
      { status := .valid,
        reason := "Verified (" ++ toString nameSim ++ "% name match)",
        matchedName := some srcName,
        matchedSSID := some (safeStringExtract best.2 srcSSIDFields),
        matchedNIN := some (safeStringExtract best.2 srcNINFields),
        similarity := some nameSim }
    else
      { status := .partMatch,
        reason := "Verification issues - " ++ joinSep "; "
          ((if ssidM then [] else ssidMismatchMsgs es ss) ++
           (if ninM then [] else ninMismatchMsgs en sn) ++
           (if nameM then [] else [nameMismatchMsg nameSim nm srcName])),
        matchedName := some srcName,
        matchedSSID := some (safeStringExtract best.2 srcSSIDFields),
        matchedNIN := some (safeStringExtract best.2 srcNINFields),
        similarity := some nameSim }

/-- The listing of non-empty fields used in the missing-name reason. -/
def availableFieldsStr (entry : Entry) : String :=
  joinSep ", "
    ((entry.filter (fun kv => kv.2 ≠ JValue.null ∧ jsTrim (jstr kv.2) ≠ "")).map
      (fun kv => kv.1 ++ ": \"" ++ jstr kv.2 ++ "\""))

/-- The no-record-found reason string. -/
def noRecordReason (nm es en : String) : String :=
  "No record found for " ++ joinSep ", "
    ((if nm ≠ "" then ["Name: \"" ++ nm ++ "\""] else []) ++
     (if es ≠ "" then ["SSID: " ++ es] else []) ++
     (if en ≠ "" then ["NIN: " ++ en] else []))

/-- The SSID probe of the gathering step. -/
def gatherSSID (bySSID : SMap) (es : String) : List IEntry :=
  if es = "" then [] else
    match mapGet bySSID es with
    | some r => [r]
    | none => []

/-- Gathering of potential matches: probe the SSID index then the NIN index,
deduplicated by record identity (source position, standing in for JS object
identity in the Set-based dedup). -/
def gatherMatches (bySSID byNIN : SMap) (es en : String) : List IEntry :=
  gatherSSID bySSID es ++
    (if en = "" then [] else
      match mapGet byNIN en with
      | some r =>
          if (gatherSSID bySSID es).any (fun p => p.1 == r.1) then [] else [r]
      | none => [])

/-- Selection and classification against the gathered potential matches:
the best-match loop (whose similarity calls may throw) followed by the
agreement classification. -/
def matchAgainst (sim : Sim) (es en nm : String) (shr : Option Entry)
    (pot : List IEntry) : Except String ValidationResult :=
  match chooseBest sim es en nm shr pot with
  | .error m => .error m
  | .ok best => .ok (classify sim es en nm shr best)

/-- The body of getMatchStatus up to the defensive try/catch: the terminal
Invalid outcomes, the gathering, the best-match selection, and the
classification. -/
def getMatchStatusCore (sim : Sim) (entry : Entry) (bySSID byNIN : SMap)
    (shr ehr : Option Entry) : Except String ValidationResult :=
  let es := extractField entry entrySSIDFields ehr
  let en := extractField entry entryNINFields ehr
  let nm := extractFullName entry ehr
  if nm = "" then
    .ok { status := .invalid,
          reason := "Missing name field. Available fields: " ++ availableFieldsStr entry }
  else if es = "" ∧ en = "" then
    .ok { status := .invalid,
          reason := "Missing both SSID and NIN - at least one required for identity verification" }
  else
    match gatherMatches bySSID byNIN es en with
    | [] => .ok { status := .invalid, reason := noRecordReason nm es en }
    | x :: xs => matchAgainst sim es en nm shr (x :: xs)

/-- The catch-all of getMatchStatus: a thrown fault becomes an Invalid
system-error outcome carrying the message. -/
def unwrapResult : Except String ValidationResult → ValidationResult
  | .ok r => r
  | .error m => { status := .invalid, reason := "System error: " ++ m }

/-- getMatchStatus of the validate route. -/
def getMatchStatus (sim : Sim) (entry : Entry) (bySSID byNIN : SMap)
    (shr ehr : Option Entry) : ValidationResult :=
  unwrapResult (getMatchStatusCore sim entry bySSID byNIN shr ehr)

/-- The source-indexing loop of the POST handler, with the source position
carried as record identity. -/
def buildIdxAux (shr : Option Entry) : Nat → List Entry → SMap × SMap → SMap × SMap
  | _, [], ms => ms
  | i, r :: rs, (m1, m2) =>
      let ssid := extractField r idxSSIDFields shr
      let nin := extractField r idxNINFields shr
      let m1' := if ssid = "" then m1 else mapSet m1 ssid (i, r)
      let m2' := if nin = "" then m2 else mapSet m2 nin (i, r)
      buildIdxAux shr (i + 1) rs (m1', m2')

/-- Build the two source indices (by normalized SSID, by normalized NIN). -/
def buildIndexes (source : List Entry) (shr : Option Entry) : SMap × SMap :=
  buildIdxAux shr 0 source ([], [])

/-- One output row: the original candidate fields plus the five result
columns added by the handler. -/
structure ProcessedEntry where
  original : Entry
  matchStatus : Status
  matchReason : String
  matchedName : String
  correctSSID : String
  correctNIN : String
  deriving DecidableEq, Repr

/-- Processing of a single candidate into its output row. -/
def processOne (sim : Sim) (bySSID byNIN : SMap) (shr ehr : Option Entry) (e : Entry) :
    ProcessedEntry :=
  let r := getMatchStatus sim e bySSID byNIN shr ehr
  { original := e, matchStatus := r.status, matchReason := r.reason,
    matchedName := r.matchedName.getD "", correctSSID := r.matchedSSID.getD "",
    correctNIN := r.matchedNIN.getD "" }

/-- The handler's main loop: build the indices once, then process every
candidate in input order. -/
def processEntries (sim : Sim) (source entries : List Entry) (shr ehr : Option Entry) :
    List ProcessedEntry :=
  let ms := buildIndexes source shr
  entries.map (processOne sim ms.1 ms.2 shr ehr)

/-- Count of result rows with the given status. -/
def countStatus (s : Status) (rs : List ProcessedEntry) : Nat :=
  (rs.filter (fun r => r.matchStatus == s)).length

/-- The summary block computed by the handler. -/
structure Summary where
  total : Nat
  valid : Nat
  invalid : Nat
  partMatch : Nat
  deriving DecidableEq, Repr

/-- Summary computation: total is the result count, the three buckets are
filters on the Match Status column. -/
def buildSummary (rs : List ProcessedEntry) : Summary :=
  { total := rs.length, valid := countStatus .valid rs,
    invalid := countStatus .invalid rs, partMatch := countStatus .partMatch rs }

/-- Key normalization of the dataSource module (lower-case, strip
non-alphanumerics; no synonym folds). -/
def normalizeKeyDS (s : String) : String :=
  String.mk ((lowerCharList s.data).filter isKeyAlnum)

/-- The key scan of the dataSource extractField: first entry key whose
normalized form is among the normalized field names, with a non-null value;
returns the raw trimmed value (possibly empty). -/
def dsScan (names : List String) : Entry → Option String
  | [] => none
  | (k, v) :: rest =>
      if names.contains (normalizeKeyDS k) ∧ v ≠ JValue.null then some (jsTrim (jstr v))
      else dsScan names rest

/-- extractField of the dataSource module. -/
def extractFieldDS (entry : Entry) (fields : List String) : String :=
  (dsScan (fields.map normalizeKeyDS) entry).getD ""

/-- The SSID map-building loop of getDataSource, position carried as
identity. -/
def dsMapAux : Nat → List Entry → SMap → SMap
  | _, [], m => m
  | i, r :: rs, m =>
      let ssid := normStr (extractFieldDS r ["SSID", "ssid"])
      dsMapAux (i + 1) rs (if ssid = "" then m else mapSet m ssid (i, r))

/-- The SSID lookup map built by getDataSource over the decoded records. -/
def dataSourceMap (records : List Entry) : SMap := dsMapAux 0 records []

/-- Whether a cell is a string (typeof cell === 'string'). -/
def cellIsStr : JValue → Bool
  | .str _ => true
  | _ => false

/-- Whether a cell counts as non-null and non-empty
(cell != null && cell !== ''). -/
def cellCounts (v : JValue) : Bool := !(v == JValue.null) && !(v == JValue.str "")

/-- Cell text used by Array.prototype.join (null and undefined join as the
empty string). -/
def cellJoin : JValue → String
  | .null => ""
  | .str s => s
  | .num n => toString n

/-- row.join(' ').toLowerCase() of the header detector. -/
def rowJoinLower (row : List JValue) : String :=
  jsToLower (joinSep " " (row.map cellJoin))

/-- The fixed keyword list of findBestHeaderRowIndex. -/
def headerKeywords : List String :=
  ["ssid", "nin", "name", "id", "pension", "account", "bank", "verification",
   "no", "s/n", "firstname", "lastname"]

/-- Keyword matches of one row: keywords occurring as substrings of the
joined lower-cased row text. -/
def keywordCount (row : List JValue) : Nat :=
  (headerKeywords.filter (fun k => strContains (rowJoinLower row) k)).length

/-- The effective score of a row in the header-detection loop: rows failing
the shape guards (empty, fewer than 2 counted cells, or strings fewer than
half the counted cells) are skipped, which is equivalent to scoring 0 since
the loop only moves on a strictly positive improvement. -/
def rowScore (row : List JValue) : Nat :=
  if row = [] then 0
  else
    let strCount := (row.filter cellIsStr).length
    let total := (row.filter cellCounts).length
    if total < 2 ∨ 2 * strCount < total then 0 else keywordCount row

/-- The scanning loop of findBestHeaderRowIndex. -/
def findBestAux : List (List JValue) → Nat → Nat → Nat → Nat
  | [], _, bi, _ => bi
  | r :: rs, i, bi, bs =>
      let sc := rowScore r
      if bs < sc then findBestAux rs (i + 1) i sc else findBestAux rs (i + 1) bi bs

/-- findBestHeaderRowIndex of the dataSource module: scan at most the first
10 rows, keeping the first row achieving the highest score, defaulting to
index 0. -/
def findBestHeaderRowIndex (rows : List (List JValue)) : Nat :=
  findBestAux (rows.take 10) 0 0 0

/-! Lemmas about the string primitives. -/

theorem charOfNat_toNat (n : Nat) (h : n < 55296) : (Char.ofNat n).toNat = n := by
  have hv : n.isValidChar := Or.inl h
  simp [Char.ofNat, hv, Char.toNat, Char.ofNatAux, UInt32.toNat, UInt32.ofNatCore,
    BitVec.toNat_ofNatLt]

theorem charLower_toNat_of_upper (c : Char) (h : 65 ≤ c.toNat ∧ c.toNat ≤ 90) :
    (charLower c).toNat = c.toNat + 32 := by
  rw [charLower, if_pos h]
  exact charOfNat_toNat _ (by omega)

theorem isWS_charLower (c : Char) : isWSChar (charLower c) = isWSChar c := by
  by_cases h : 65 ≤ c.toNat ∧ c.toNat ≤ 90
  · have h1 := charLower_toNat_of_upper c h
    have l1 : isWSChar (charLower c) = false := by
      simp only [isWSChar, h1, Bool.or_eq_false_iff, beq_eq_false_iff_ne, ne_eq]
      omega
    have l2 : isWSChar c = false := by
      simp only [isWSChar, Bool.or_eq_false_iff, beq_eq_false_iff_ne, ne_eq]
      omega
    rw [l1, l2]
  · rw [charLower, if_neg h]

theorem dropWhileMap (f : Char → Char) (p : Char → Bool) (hp : ∀ c, p (f c) = p c)
    (l : List Char) : (l.map f).dropWhile p = (l.dropWhile p).map f := by
  induction l with
  | nil => rfl
  | cons c cs ih =>
      simp only [List.map_cons, List.dropWhile_cons, hp c]
      by_cases hc : p c = true
      · simp [hc, ih]
      · simp [hc]

theorem trimLowerComm (l : List Char) :
    trimCharList (lowerCharList l) = lowerCharList (trimCharList l) := by
  unfold trimCharList lowerCharList
  rw [dropWhileMap charLower isWSChar isWS_charLower l, ← List.map_reverse,
    dropWhileMap charLower isWSChar isWS_charLower, ← List.map_reverse]

theorem filterDropWhile (q p : Char → Bool) (hpq : ∀ c, p c = true → q c = false)
    (l : List Char) : (l.dropWhile p).filter q = l.filter q := by
  induction l with
  | nil => rfl
  | cons c cs ih =>
      by_cases hc : p c = true
      · simp [List.dropWhile_cons, hc, ih, List.filter_cons, hpq c hc]
      · simp [List.dropWhile_cons, hc]

theorem filterTrim (q : Char → Bool) (hq : ∀ c, isWSChar c = true → q c = false)
    (l : List Char) : (trimCharList l).filter q = l.filter q := by
  unfold trimCharList
  rw [List.filter_reverse, filterDropWhile q isWSChar hq, List.filter_reverse,
    filterDropWhile q isWSChar hq, List.reverse_reverse]

theorem ws_not_alnum (c : Char) (h : isWSChar c = true) : isKeyAlnum c = false := by
  simp only [isWSChar, Bool.or_eq_true, beq_iff_eq] at h
  simp only [isKeyAlnum, Bool.or_eq_false_iff, Bool.and_eq_false_iff,
    decide_eq_false_iff_not, not_le]
  omega

theorem listStarts_append (p l r : List Char) (h : listStarts p l = true) :
    listStarts p (l ++ r) = true := by
  induction p generalizing l with
  | nil => rfl
  | cons a as ih =>
      cases l with
      | nil => simp [listStarts] at h
      | cons c cs =>
          simp only [listStarts, Bool.and_eq_true, beq_iff_eq] at h
          simp only [List.cons_append, listStarts, Bool.and_eq_true, beq_iff_eq]
          exact ⟨h.1, ih cs h.2⟩

theorem hasSub_nil_pat (l : List Char) : hasSub [] l = true := by
  cases l <;> simp [hasSub, listStarts]

theorem hasSub_append_left (p a b : List Char) (h : hasSub p a = true) :
    hasSub p (a ++ b) = true := by
  induction a with
  | nil =>
      have hp : p = [] := by
        cases p with
        | nil => rfl
        | cons x xs => simp [hasSub, listStarts] at h
      subst hp
      exact hasSub_nil_pat _
  | cons c cs ih =>
      simp only [hasSub, Bool.or_eq_true] at h
      simp only [List.cons_append, hasSub, Bool.or_eq_true]
      rcases h with h | h
      · exact Or.inl (listStarts_append p (c :: cs) b h)
      · exact Or.inr (ih h)

theorem hasSub_append_right (p a b : List Char) (h : hasSub p b = true) :
    hasSub p (a ++ b) = true := by
  induction a with
  | nil => exact h
  | cons c cs ih =>
      simp only [List.cons_append, hasSub, Bool.or_eq_true]
      exact Or.inr ih

theorem strContains_append_left (a b p : String) (h : strContains a p = true) :
    strContains (a ++ b) p = true := by
  unfold strContains at h ⊢
  rw [String.data_append]
  exact hasSub_append_left _ _ _ h

theorem strContains_append_right (a b p : String) (h : strContains b p = true) :
    strContains (a ++ b) p = true := by
  unfold strContains at h ⊢
  rw [String.data_append]
  exact hasSub_append_right _ _ _ h

theorem joinSep_contains (sep p : String) (l : List String) (x : String)
    (hx : x ∈ l) (hc : strContains x p = true) :
    strContains (joinSep sep l) p = true := by
  induction l with
  | nil => cases hx
  | cons a rest ih =>
      cases rest with
      | nil =>
          rcases List.mem_singleton.mp hx with rfl
          exact hc
      | cons b r2 =>
          rcases List.mem_cons.mp hx with rfl | hx'
          · exact strContains_append_left _ _ _ (strContains_append_left _ _ _ hc)
          · exact strContains_append_right _ _ _ (ih hx')

/-! Concrete fixtures used by counterexamples and witnesses. -/

/-- An exact-equality similarity provider used for concrete evaluations. -/
def exSimEq : Sim := pureSim (fun a b => if a = b then 100 else 0)

/-- First source record of the duplicate-SSID scenario (Scenario E). -/
def dupR1 : Entry := [("SSID", .str "A1"), ("NAME", .str "John")]

/-- Second source record of the duplicate-SSID scenario: same normalized SSID,
different name. -/
def dupR2 : Entry := [("SSID", .str "a1"), ("NAME", .str "Jane")]

/-- Source record of the C2 counterexample. -/
def exC2Src : Entry := [("SSID", .str "a1"), ("NIN", .str "n1"), ("NAME", .str "john")]

/-- Candidate of the C2 counterexample: it carries a NIN and a name but no
SSID at all. -/
def exC2Cand : Entry := [("NIN", .str "n1"), ("NAME", .str "john")]

/-- C3: the claim FAILS on the code. Both indexing loops, the validate
handler's and getDataSource's, overwrite the SSID map entry on a duplicate
normalized SSID, so the second-seen record wins every subsequent lookup,
and neither loop records any duplicate warning (the model has no warning
channel because the source has none). The claim, the spec's Scenario E and
the README's advertised source-integrity check all require first-seen-wins
plus a recorded warning. -/
theorem c3_duplicate_ssid_last_wins :
    mapGet (buildIndexes [dupR1, dupR2] none).1 "a1" = some (1, dupR2) ∧
    mapGet (dataSourceMap [dupR1, dupR2]) "a1" = some (1, dupR2) ∧
    dupR2 ≠ dupR1 := by
  exact ⟨by decide, by decide, by decide⟩

/-- C2 counterexample: a candidate with an empty resolved SSID whose chosen
best match carries the non-empty source SSID "a1". The claim predicts the
SSID agreement check is true (one side empty), hence a Valid verdict since
the NIN check and the 100-percent name similarity also hold; the code's
check is false and the candidate is classified Partial Match with a reason
recording the missing SSID. -/
theorem c2_counterexample :
    idAgree "" "a1" = false ∧
    idAgree "n1" "n1" = true ∧
    simOrDefault exSimEq "john" "john" = 100 ∧
    (getMatchStatus exSimEq exC2Cand (buildIndexes [exC2Src] none).1
        (buildIndexes [exC2Src] none).2 none none).status = .partMatch ∧
    strContains (getMatchStatus exSimEq exC2Cand (buildIndexes [exC2Src] none).1
        (buildIndexes [exC2Src] none).2 none none).reason "Missing SSID" = true := by
  exact ⟨by decide, by decide, by decide, by decide, by decide⟩

/-- C2 amended: the identifier-agreement check used by getMatchStatus for
both SSID and NIN (route.ts lines 394-395) is true exactly when both sides
are empty or both are non-empty and equal; an empty side opposite a
non-empty side fails the check (the strict-absence policy). -/
theorem c2_idAgree_characterization (a b : String) :
    idAgree a b = true ↔ ((a = "" ∧ b = "") ∨ (a ≠ "" ∧ b ≠ "" ∧ a = b)) := by
  simp only [idAgree, Bool.or_eq_true, Bool.and_eq_true, beq_iff_eq, bne_iff_ne, ne_eq]
  tauto

/-- C5: a candidate whose resolved full name is empty is classified Invalid
immediately, with a reason referencing the missing name, regardless of the
source indices; and a named candidate whose resolved SSID and NIN are both
empty is likewise Invalid immediately with the missing-identifiers
reason. -/
theorem c5_terminal_invalids (sim : Sim) (entry : Entry) (bySSID byNIN : SMap)
    (shr ehr : Option Entry) :
    (extractFullName entry ehr = "" →
      (getMatchStatus sim entry bySSID byNIN shr ehr).status = .invalid ∧
      strContains (getMatchStatus sim entry bySSID byNIN shr ehr).reason
        "Missing name field" = true) ∧
    (extractFullName entry ehr ≠ "" →
      extractField entry entrySSIDFields ehr = "" →
      extractField entry entryNINFields ehr = "" →
      (getMatchStatus sim entry bySSID byNIN shr ehr).status = .invalid ∧
      (getMatchStatus sim entry bySSID byNIN shr ehr).reason =
        "Missing both SSID and NIN - at least one required for identity verification") := by
  constructor
  · intro h
    have hr : getMatchStatus sim entry bySSID byNIN shr ehr =
        { status := .invalid,
          reason := "Missing name field. Available fields: " ++ availableFieldsStr entry } := by
      unfold getMatchStatus getMatchStatusCore
      simp [h, unwrapResult]
    rw [hr]
    exact ⟨rfl, strContains_append_left _ _ _ (by decide)⟩
  · intro h1 h2 h3
    have hr : getMatchStatus sim entry bySSID byNIN shr ehr =
        { status := .invalid,
          reason := "Missing both SSID and NIN - at least one required for identity verification" } := by
      unfold getMatchStatus getMatchStatusCore
      simp [h1, h2, h3, unwrapResult]
    rw [hr]
    exact ⟨rfl, rfl⟩

/-- C5 witness: concrete evaluations of the two terminal Invalid branches. -/
theorem c5_witness :
    ((getMatchStatus exSimEq [("SSID", JValue.str "A1")] [] [] none none).status = .invalid ∧
     strContains (getMatchStatus exSimEq [("SSID", JValue.str "A1")] [] [] none none).reason
       "Missing name field" = true) ∧
    ((getMatchStatus exSimEq [("NAME", JValue.str "Jo")] [] [] none none).status = .invalid ∧
     (getMatchStatus exSimEq [("NAME", JValue.str "Jo")] [] [] none none).reason =
       "Missing both SSID and NIN - at least one required for identity verification") :=
  ⟨(c5_terminal_invalids exSimEq [("SSID", JValue.str "A1")] [] [] none none).1 (by decide),
   (c5_terminal_invalids exSimEq [("NAME", JValue.str "Jo")] [] [] none none).2
     (by decide) (by decide) (by decide)⟩

/-- Valid, Invalid and Partial Match counts always partition the results. -/
theorem status_partition (rs : List ProcessedEntry) :
    countStatus .valid rs + countStatus .invalid rs + countStatus .partMatch rs = rs.length := by
  induction rs with
  | nil => rfl
  | cons r rest ih =>
      simp only [countStatus, List.filter_cons] at ih ⊢
      cases h : r.matchStatus <;> simp [h] <;> omega

/-- C6: exactly one output row per candidate, positionally (row i is the
processing of candidate i), and the summary is consistent:
valid + invalid + partialMatch = total = number of result rows. -/
theorem c6_completeness_and_summary (sim : Sim) (source entries : List Entry)
    (shr ehr : Option Entry) :
    (processEntries sim source entries shr ehr).length = entries.length ∧
    (∀ i : Nat, (processEntries sim source entries shr ehr).get? i =
      (entries.get? i).map
        (processOne sim (buildIndexes source shr).1 (buildIndexes source shr).2 shr ehr)) ∧
    (buildSummary (processEntries sim source entries shr ehr)).valid +
      (buildSummary (processEntries sim source entries shr ehr)).invalid +
      (buildSummary (processEntries sim source entries shr ehr)).partMatch =
      (buildSummary (processEntries sim source entries shr ehr)).total ∧
    (buildSummary (processEntries sim source entries shr ehr)).total =
      (processEntries sim source entries shr ehr).length := by
  refine ⟨by simp [processEntries], ?_, status_partition _, rfl⟩
  intro i
  simp [processEntries, List.get?_map]

/-- A similarity provider that always throws. -/
def exSimBoom : Sim := fun _ _ => .error "boom"

/-- C7: a similarity-provider fault during one candidate's evaluation is
caught by getMatchStatus's catch-all and converted into an Invalid result
whose reason carries the fault's message, and every other candidate is still
processed: the batch output is exactly the untouched processing of the
candidates before and after the faulting one, so the batch is never
shortened or aborted. -/
theorem c7_fault_isolation (sim : Sim) (source : List Entry) (shr ehr : Option Entry)
    (es1 es2 : List Entry) (e : Entry) (msg : String)
    (h : getMatchStatusCore sim e (buildIndexes source shr).1 (buildIndexes source shr).2
      shr ehr = .error msg) :
    processEntries sim source (es1 ++ e :: es2) shr ehr =
      processEntries sim source es1 shr ehr ++
        ({ original := e, matchStatus := .invalid,
           matchReason := "System error: " ++ msg,
           matchedName := "", correctSSID := "", correctNIN := "" } ::
          processEntries sim source es2 shr ehr) ∧
    (processEntries sim source (es1 ++ e :: es2) shr ehr).length =
      es1.length + 1 + es2.length := by
  have hone : processOne sim (buildIndexes source shr).1 (buildIndexes source shr).2 shr ehr e =
      { original := e, matchStatus := .invalid, matchReason := "System error: " ++ msg,
        matchedName := "", correctSSID := "", correctNIN := "" } := by
    unfold processOne getMatchStatus
    rw [h]
    rfl
  constructor
  · simp only [processEntries, List.map_append, List.map_cons, hone]
  · simp only [processEntries, List.length_map, List.length_append, List.length_cons]
    omega

/-- C7 witness: a provider that throws on the single candidate of a batch
still yields one Invalid row carrying the fault message. -/
theorem c7_witness :
    processEntries exSimBoom [exC2Src] ([] ++ exC2Cand :: []) none none =
      processEntries exSimBoom [exC2Src] [] none none ++
        ({ original := exC2Cand, matchStatus := .invalid,
           matchReason := "System error: " ++ "boom",
           matchedName := "", correctSSID := "", correctNIN := "" } ::
          processEntries exSimBoom [exC2Src] [] none none) ∧
    (processEntries exSimBoom [exC2Src] ([] ++ exC2Cand :: []) none none).length =
      List.length ([] : List Entry) + 1 + List.length ([] : List Entry) :=
  c7_fault_isolation exSimBoom [exC2Src] none none [] [] exC2Cand "boom" (by rfl)

/-- getMatchStatus either yields an Invalid result or delegates to classify
on some chosen best match. -/
theorem getMatchStatus_invalid_or_classify (sim : Sim) (entry : Entry)
    (bySSID byNIN : SMap) (shr ehr : Option Entry) :
    (getMatchStatus sim entry bySSID byNIN shr ehr).status = .invalid ∨
    ∃ best, getMatchStatus sim entry bySSID byNIN shr ehr =
      classify sim (extractField entry entrySSIDFields ehr)
        (extractField entry entryNINFields ehr) (extractFullName entry ehr) shr best := by
  unfold getMatchStatus getMatchStatusCore
  by_cases h1 : extractFullName entry ehr = ""
  · left; simp [h1, unwrapResult]
  · by_cases h2 : extractField entry entrySSIDFields ehr = "" ∧
        extractField entry entryNINFields ehr = ""
    · left; simp [h1, h2, unwrapResult]
    · cases hg : gatherMatches bySSID byNIN (extractField entry entrySSIDFields ehr)
          (extractField entry entryNINFields ehr) with
      | nil => left; simp [h1, h2, hg, unwrapResult]
      | cons x xs =>
          cases hcb : chooseBest sim (extractField entry entrySSIDFields ehr)
              (extractField entry entryNINFields ehr) (extractFullName entry ehr) shr
              (x :: xs) with
          | error m => left; simp [h1, h2, hg, hcb, matchAgainst, unwrapResult]
          | ok best => right; exact ⟨best, by simp [h1, h2, hg, hcb, matchAgainst, unwrapResult]⟩

/-- classify is either Invalid, or reports the matched source name (which is
then non-empty) and the computed similarity. -/
theorem classify_valid_or_part_fields (sim : Sim) (es en nm : String) (shr : Option Entry)
    (best : IEntry) :
    (classify sim es en nm shr best).status = .invalid ∨
    ((classify sim es en nm shr best).matchedName = some (extractFullName best.2 shr) ∧
     extractFullName best.2 shr ≠ "" ∧
     (classify sim es en nm shr best).similarity =
       some (simOrDefault sim nm (extractFullName best.2 shr))) := by
  unfold classify
  by_cases h : extractFullName best.2 shr = ""
  · left; simp [h]
  · right
    refine ⟨?_, h, ?_⟩ <;> simp only [if_neg h] <;> split <;> rfl

/-- A similarity provider bounded by 100 keeps the guarded similarity
computation bounded by 100 (the fallback values are 100 and 0). -/
theorem simOrDefault_le_100 (sim : Sim) (hs : ∀ a b v, sim a b = .ok v → v ≤ 100)
    (a b : String) : simOrDefault sim a b ≤ 100 := by
  unfold simOrDefault
  cases h : sim a b with
  | ok v => simp only [h]; exact hs a b v h
  | error m => simp only [h]; split <;> omega

/-- C10: whenever getMatchStatus returns a Valid or Partial Match result,
the matchedName field is a defined non-empty string and the similarity field
is a defined integer at most 100 (the provider returns scores in 0..100, and
the fallback values are 100 and 0); the Invalid branches are the only ones
that omit these fields. -/
theorem c10_valid_partial_fields (sim : Sim) (hs : ∀ a b v, sim a b = .ok v → v ≤ 100)
    (entry : Entry) (bySSID byNIN : SMap) (shr ehr : Option Entry)
    (h : (getMatchStatus sim entry bySSID byNIN shr ehr).status = .valid ∨
         (getMatchStatus sim entry bySSID byNIN shr ehr).status = .partMatch) :
    (∃ n, (getMatchStatus sim entry bySSID byNIN shr ehr).matchedName = some n ∧ n ≠ "") ∧
    (∃ k, (getMatchStatus sim entry bySSID byNIN shr ehr).similarity = some k ∧ k ≤ 100) := by
  rcases getMatchStatus_invalid_or_classify sim entry bySSID byNIN shr ehr with hinv | ⟨best, hb⟩
  · rcases h with h | h <;> rw [hinv] at h <;> exact Status.noConfusion h
  · rw [hb] at h ⊢
    rcases classify_valid_or_part_fields sim (extractField entry entrySSIDFields ehr)
        (extractField entry entryNINFields ehr) (extractFullName entry ehr) shr best with
      hinv2 | ⟨hm, hne, hsim⟩
    · rcases h with h | h <;> rw [h] at hinv2 <;> exact Status.noConfusion hinv2
    · exact ⟨⟨_, hm, hne⟩, ⟨_, hsim, simOrDefault_le_100 sim hs _ _⟩⟩

/-- Source record of the C10 witness (Scenario A). -/
def exAR : Entry := [("SSID", .str "A1"), ("FULL NAME", .str "John Smith")]

/-- Candidate of the C10 witness (Scenario A). -/
def exACand : Entry := [("SSID", .str "a1"), ("Full Name", .str "JOHN SMITH")]

/-- C10 witness: a concrete Valid result carries a non-empty matched name
and a bounded similarity. -/
theorem c10_witness :
    (∃ n, (getMatchStatus exSimEq exACand (buildIndexes [exAR] none).1
        (buildIndexes [exAR] none).2 none none).matchedName = some n ∧ n ≠ "") ∧
    (∃ k, (getMatchStatus exSimEq exACand (buildIndexes [exAR] none).1
        (buildIndexes [exAR] none).2 none none).similarity = some k ∧ k ≤ 100) :=
  c10_valid_partial_fields exSimEq
    (by
      intro a b v hv
      simp only [exSimEq, pureSim, Except.ok.injEq] at hv
      subst hv
      split <;> omega)
    exACand (buildIndexes [exAR] none).1 (buildIndexes [exAR] none).2 none none
    (Or.inl (by decide))

/-- The pure per-record score of the best-match loop (five times the JS
score, as in scoreRecord). -/
def codeScore (f : String → String → Nat) (es en nm : String) (shr : Option Entry)
    (r : Entry) : Nat :=
  (if es ≠ "" ∧ extractField r srcSSIDFields shr ≠ "" ∧
      extractField r srcSSIDFields shr = es then 200 else 0) +
  (if en ≠ "" ∧ extractField r srcNINFields shr ≠ "" ∧
      extractField r srcNINFields shr = en then 200 else 0) +
  (if extractFullName r shr = "" then 0 else f nm (extractFullName r shr))

theorem scoreRecord_pure (f : String → String → Nat) (es en nm : String)
    (shr : Option Entry) (r : Entry) :
    scoreRecord (pureSim f) es en nm shr r = .ok (codeScore f es en nm shr r) := by
  unfold scoreRecord codeScore pureSim
  by_cases h : extractFullName r shr = "" <;> simp [h]

/-- The claim's selection rule: walk the list keeping the earlier record
unless a strictly higher score appears. -/
def argmaxGo (score : IEntry → Nat) : List IEntry → IEntry → IEntry
  | [], b => b
  | r :: rs, b => if score b < score r then argmaxGo score rs r else argmaxGo score rs b

/-- The claim's best-match choice: the record with the highest score, ties
resolved in favor of the first-seen record. -/
def argmaxFirst (score : IEntry → Nat) : List IEntry → Option IEntry
  | [] => none
  | x :: xs => some (argmaxGo score xs x)

/-- The score formula exactly as the claim words it (scaled by five to stay
in integers): 40 when the record's resolved SSID is non-empty and equals the
candidate's, 40 likewise for NIN, plus 0.2 times the name-similarity score,
unconditionally. -/
def claimScore (f : String → String → Nat) (es en nm : String) (shr : Option Entry)
    (r : Entry) : Nat :=
  (if extractField r srcSSIDFields shr ≠ "" ∧
      extractField r srcSSIDFields shr = es then 200 else 0) +
  (if extractField r srcNINFields shr ≠ "" ∧
      extractField r srcNINFields shr = en then 200 else 0) +
  f nm (extractFullName r shr)

theorem chooseBestAux_pure (f : String → String → Nat) (es en nm : String)
    (shr : Option Entry) (l : List IEntry) :
    ∀ b : IEntry,
      chooseBestAux (pureSim f) es en nm shr l b (codeScore f es en nm shr b.2) =
        .ok (argmaxGo (fun r => codeScore f es en nm shr r.2) l b) := by
  induction l with
  | nil => intro b; rfl
  | cons r rs ih =>
      intro b
      simp only [chooseBestAux, scoreRecord_pure, argmaxGo]
      by_cases hc : codeScore f es en nm shr b.2 < codeScore f es en nm shr r.2
      · rw [if_pos hc, if_pos hc, ih r]
      · rw [if_neg hc, if_neg hc, ih b]

theorem chooseBest_pure (f : String → String → Nat) (es en nm : String)
    (shr : Option Entry) (x : IEntry) (xs : List IEntry) :
    chooseBest (pureSim f) es en nm shr (x :: xs) =
      .ok (argmaxGo (fun r => codeScore f es en nm shr r.2) xs x) := by
  unfold chooseBest
  simp only [chooseBestAux, scoreRecord_pure]
  by_cases h0 : 0 < codeScore f es en nm shr x.2
  · rw [if_pos h0]
    exact chooseBestAux_pure f es en nm shr xs x
  · rw [if_neg h0]
    have hz : codeScore f es en nm shr x.2 = 0 := by omega
    rw [show (0 : Nat) = codeScore f es en nm shr x.2 from hz.symm]
    exact chooseBestAux_pure f es en nm shr xs x

theorem argmaxGo_congr (s1 s2 : IEntry → Nat) (h : ∀ r, s1 r = s2 r) (l : List IEntry) :
    ∀ b, argmaxGo s1 l b = argmaxGo s2 l b := by
  induction l with
  | nil => intro b; rfl
  | cons r rs ih =>
      intro b
      simp only [argmaxGo, h]
      split <;> rw [ih]

theorem codeScore_eq_claimScore (f : String → String → Nat) (hf0 : ∀ s, f s "" = 0)
    (es en nm : String) (shr : Option Entry) (r : Entry) :
    codeScore f es en nm shr r = claimScore f es en nm shr r := by
  unfold codeScore claimScore
  have hssid : (es ≠ "" ∧ extractField r srcSSIDFields shr ≠ "" ∧
      extractField r srcSSIDFields shr = es) ↔
      (extractField r srcSSIDFields shr ≠ "" ∧ extractField r srcSSIDFields shr = es) := by
    constructor
    · rintro ⟨_, h2, h3⟩; exact ⟨h2, h3⟩
    · rintro ⟨h2, h3⟩; exact ⟨h3 ▸ h2, h2, h3⟩
  have hnin : (en ≠ "" ∧ extractField r srcNINFields shr ≠ "" ∧
      extractField r srcNINFields shr = en) ↔
      (extractField r srcNINFields shr ≠ "" ∧ extractField r srcNINFields shr = en) := by
    constructor
    · rintro ⟨_, h2, h3⟩; exact ⟨h2, h3⟩
    · rintro ⟨h2, h3⟩; exact ⟨h3 ▸ h2, h2, h3⟩
  rw [if_congr hssid rfl rfl, if_congr hnin rfl rfl]
  by_cases hn : extractFullName r shr = ""
  · rw [if_pos hn, hn, hf0]
  · rw [if_neg hn]

/-- C4: for a provider that scores any name against an unresolvable (empty)
source name as zero, as fuzzball does, the record chosen by the best-match
loop is exactly the gathered record maximizing the claim's score formula
(40 for SSID equality, 40 for NIN equality, 0.2 times the name similarity;
here scaled by five to stay in integers), ties resolved in favor of the
first-seen record. -/
theorem c4_best_match_argmax (f : String → String → Nat) (hf0 : ∀ s, f s "" = 0)
    (es en nm : String) (shr : Option Entry) (l : List IEntry) (b : IEntry)
    (hne : l ≠ [])
    (h : chooseBest (pureSim f) es en nm shr l = .ok b) :
    argmaxFirst (fun r => claimScore f es en nm shr r.2) l = some b := by
  cases l with
  | nil => exact absurd rfl hne
  | cons x xs =>
      rw [chooseBest_pure] at h
      have hb : argmaxGo (fun r => codeScore f es en nm shr r.2) xs x = b :=
        Except.ok.inj h
      have hrfl : argmaxFirst (fun r => claimScore f es en nm shr r.2) (x :: xs) =
          some (argmaxGo (fun r => claimScore f es en nm shr r.2) xs x) := rfl
      rw [hrfl, argmaxGo_congr (fun r => claimScore f es en nm shr r.2)
        (fun r => codeScore f es en nm shr r.2)
        (fun r => (codeScore_eq_claimScore f hf0 es en nm shr r.2).symm) xs x, hb]

/-- The bounded similarity provider of the C4 witness. -/
def exF0 : String → String → Nat :=
  fun a b => if b = "" then 0 else if a = b then 100 else 50

/-- First gathered record of the C4 witness (lower score). -/
def exC4R1 : Entry := [("SSID", .str "s1"), ("NAME", .str "ann")]

/-- Second gathered record of the C4 witness (higher score: SSID hit). -/
def exC4R2 : Entry := [("SSID", .str "s2"), ("NAME", .str "ann")]

/-- C4 witness: on a two-record gathering where the second record agrees on
SSID, the claim's argmax picks that record, via the theorem applied to the
loop's concrete choice. -/
theorem c4_witness :
    argmaxFirst (fun r => claimScore exF0 "s2" "" "ann" none r.2)
      [(0, exC4R1), (1, exC4R2)] = some (1, exC4R2) :=
  c4_best_match_argmax exF0 (by intro s; simp [exF0]) "s2" "" "ann" none
    [(0, exC4R1), (1, exC4R2)] (1, exC4R2) (by simp) (by rfl)

/-- The relative index at which the header-detection loop last updates its
best row: the first row whose score achieves the window's maximum, provided
that maximum strictly exceeds the incoming threshold. -/
def firstMaxIdx : List (List JValue) → Nat → Option Nat
  | [], _ => none
  | r :: rs, bs =>
      if bs < rowScore r then
        match firstMaxIdx rs (rowScore r) with
        | none => some 0
        | some j => some (j + 1)
      else (firstMaxIdx rs bs).map (· + 1)

theorem findBestAux_eq (l : List (List JValue)) :
    ∀ i bi bs, findBestAux l i bi bs =
      (match firstMaxIdx l bs with
       | none => bi
       | some j => i + j) := by
  induction l with
  | nil => intro i bi bs; rfl
  | cons r rs ih =>
      intro i bi bs
      simp only [findBestAux, firstMaxIdx]
      by_cases h : bs < rowScore r
      · rw [if_pos h, if_pos h, ih]
        cases hm : firstMaxIdx rs (rowScore r) with
        | none => rfl
        | some j => show i + 1 + j = i + (j + 1); omega
      · rw [if_neg h, if_neg h, ih]
        cases hm : firstMaxIdx rs bs with
        | none => rfl
        | some j => show i + 1 + j = i + (j + 1); omega

theorem firstMaxIdx_none (l : List (List JValue)) :
    ∀ bs, firstMaxIdx l bs = none ↔ ∀ j, j < l.length → rowScore (l.getD j []) ≤ bs := by
  induction l with
  | nil => intro bs; simp [firstMaxIdx]
  | cons r rs ih =>
      intro bs
      simp only [firstMaxIdx]
      by_cases h : bs < rowScore r
      · rw [if_pos h]
        constructor
        · intro hc
          cases hm : firstMaxIdx rs (rowScore r) <;> rw [hm] at hc <;> simp at hc
        · intro hall
          have h0 := hall 0 (by simp)
          simp at h0
          omega
      · rw [if_neg h]
        have hr : rowScore r ≤ bs := Nat.le_of_not_lt h
        have hmap : ∀ o : Option Nat, (o.map (· + 1) = none) ↔ o = none := by
          intro o; cases o <;> simp
        rw [hmap, ih]
        constructor
        · intro hall j hj
          cases j with
          | zero => simpa using hr
          | succ j2 =>
              rw [List.getD_cons_succ]
              exact hall j2 (by simpa using hj)
        · intro hall j hj
          have := hall (j + 1) (by simpa using hj)
          rwa [List.getD_cons_succ] at this

theorem firstMaxIdx_some (l : List (List JValue)) :
    ∀ bs j, firstMaxIdx l bs = some j →
      j < l.length ∧ bs < rowScore (l.getD j []) ∧
      (∀ k, k < l.length → rowScore (l.getD k []) ≤ rowScore (l.getD j [])) ∧
      (∀ k, k < j → rowScore (l.getD k []) < rowScore (l.getD j [])) := by
  induction l with
  | nil => intro bs j h; simp [firstMaxIdx] at h
  | cons r rs ih =>
      intro bs j h
      simp only [firstMaxIdx] at h
      by_cases hc : bs < rowScore r
      · rw [if_pos hc] at h
        cases hm : firstMaxIdx rs (rowScore r) with
        | none =>
            rw [hm] at h
            have hj : j = 0 := by simpa using h.symm
            subst hj
            have hnone := (firstMaxIdx_none rs (rowScore r)).mp hm
            refine ⟨by simp, by simpa using hc, ?_, ?_⟩
            · intro k hk
              cases k with
              | zero => simp
              | succ k2 =>
                  rw [List.getD_cons_succ, List.getD_cons_zero]
                  exact hnone k2 (by simpa using hk)
            · intro k hk
              omega
        | some j2 =>
            rw [hm] at h
            have hj : j = j2 + 1 := by simpa using h.symm
            subst hj
            obtain ⟨h1, h2, h3, h4⟩ := ih (rowScore r) j2 hm
            refine ⟨by simpa using h1, ?_, ?_, ?_⟩
            · rw [List.getD_cons_succ]
              exact lt_trans hc h2
            · intro k hk
              cases k with
              | zero =>
                  rw [List.getD_cons_zero, List.getD_cons_succ]
                  exact le_of_lt h2
              | succ k2 =>
                  rw [List.getD_cons_succ, List.getD_cons_succ]
                  exact h3 k2 (by simpa using hk)
            · intro k hk
              cases k with
              | zero =>
                  rw [List.getD_cons_zero, List.getD_cons_succ]
                  exact h2
              | succ k2 =>
                  rw [List.getD_cons_succ, List.getD_cons_succ]
                  exact h4 k2 (by omega)
      · rw [if_neg hc] at h
        cases hm : firstMaxIdx rs bs with
        | none => rw [hm] at h; simp at h
        | some j2 =>
            rw [hm] at h
            have hj : j = j2 + 1 := by simpa using h.symm
            subst hj
            obtain ⟨h1, h2, h3, h4⟩ := ih bs j2 hm
            have hr : rowScore r ≤ bs := Nat.le_of_not_lt hc
            refine ⟨by simpa using h1, ?_, ?_, ?_⟩
            · rw [List.getD_cons_succ]
              exact h2
            · intro k hk
              cases k with
              | zero =>
                  rw [List.getD_cons_zero, List.getD_cons_succ]
                  exact le_of_lt (lt_of_le_of_lt hr h2)
              | succ k2 =>
                  rw [List.getD_cons_succ, List.getD_cons_succ]
                  exact h3 k2 (by simpa using hk)
            · intro k hk
              cases k with
              | zero =>
                  rw [List.getD_cons_zero, List.getD_cons_succ]
                  exact lt_of_le_of_lt hr h2
              | succ k2 =>
                  rw [List.getD_cons_succ, List.getD_cons_succ]
                  exact h4 k2 (by omega)

theorem getD_take_eq (rows : List (List JValue)) (j : Nat) (hj : j < 10) :
    (rows.take 10).getD j [] = rows.getD j [] := by
  simp [List.getD_eq_getElem?_getD, List.getElem?_take_of_lt, hj]

theorem findBestHeaderRowIndex_eq (rows : List (List JValue)) :
    findBestHeaderRowIndex rows =
      (match firstMaxIdx (rows.take 10) 0 with
       | none => 0
       | some j => j) := by
  unfold findBestHeaderRowIndex
  rw [findBestAux_eq]
  cases firstMaxIdx (rows.take 10) 0 <;> simp

/-- C8: findBestHeaderRowIndex examines at most the first ten rows (its
value over the full grid equals its value over the ten-row window), rows
failing the shape guards (fewer than two counted cells, or string cells
fewer than half the counted cells) contribute a zero score, and the
returned index is the first (lowest) index achieving the maximum keyword
score over the examined window, with index 0 returned when no examined row
scores above zero. -/
theorem c8_header_detector (rows : List (List JValue)) :
    findBestHeaderRowIndex rows = findBestHeaderRowIndex (rows.take 10) ∧
    (∀ r : List JValue,
      ((r.filter cellCounts).length < 2 ∨
        2 * (r.filter cellIsStr).length < (r.filter cellCounts).length) →
      rowScore r = 0) ∧
    (findBestHeaderRowIndex rows = 0 ∨
      findBestHeaderRowIndex rows < min 10 rows.length) ∧
    (∀ j, j < min 10 rows.length →
      rowScore (rows.getD j []) ≤ rowScore (rows.getD (findBestHeaderRowIndex rows) [])) ∧
    (∀ j, j < min 10 rows.length →
      rowScore (rows.getD j []) = rowScore (rows.getD (findBestHeaderRowIndex rows) []) →
      findBestHeaderRowIndex rows ≤ j) ∧
    ((∀ j, j < min 10 rows.length → rowScore (rows.getD j []) = 0) →
      findBestHeaderRowIndex rows = 0) := by
  have hlen : (rows.take 10).length = min 10 rows.length := List.length_take 10 rows
  have hwin : findBestHeaderRowIndex (rows.take 10) = findBestHeaderRowIndex rows := by
    unfold findBestHeaderRowIndex
    rw [List.take_take]
    simp
  refine ⟨hwin.symm, ?_, ?_⟩
  · intro r hr
    unfold rowScore
    by_cases he : r = []
    · rw [if_pos he]
    · rw [if_neg he, if_pos hr]
  rw [findBestHeaderRowIndex_eq rows]
  cases hm : firstMaxIdx (rows.take 10) 0 with
  | none =>
      have hall := (firstMaxIdx_none (rows.take 10) 0).mp hm
      refine ⟨Or.inl rfl, ?_, ?_, fun _ => rfl⟩
      · intro j hj
        have hj10 : j < 10 := lt_of_lt_of_le hj (min_le_left _ _)
        have hjs : rowScore (rows.getD j []) = 0 := by
          have := hall j (by rw [hlen]; exact hj)
          rw [getD_take_eq rows j hj10] at this
          omega
        rw [hjs]
        exact Nat.zero_le _
      · intro j hj _
        exact Nat.zero_le j
  | some j0 =>
      have hred : (match some j0 with
        | none => 0
        | some j => j) = j0 := rfl
      rw [hred]
      obtain ⟨h1, h2, h3, h4⟩ := firstMaxIdx_some (rows.take 10) 0 j0 hm
      rw [hlen] at h1
      have hj010 : j0 < 10 := lt_of_lt_of_le h1 (min_le_left _ _)
      rw [getD_take_eq rows j0 hj010] at h2 h3 h4
      refine ⟨Or.inr h1, ?_, ?_, ?_⟩
      · intro j hj
        have hj10 : j < 10 := lt_of_lt_of_le hj (min_le_left _ _)
        have := h3 j (by rw [hlen]; exact hj)
        rwa [getD_take_eq rows j hj10] at this
      · intro j hj heq
        by_contra hlt
        push_neg at hlt
        have hk10 : j < 10 := lt_of_lt_of_le hj (min_le_left _ _)
        have := h4 j hlt
        rw [getD_take_eq rows j hk10] at this
        omega
      · intro hall
        have := hall j0 h1
        omega

/-- Concrete grid of the C8 witness: a junk row, a keyword-dense header row,
then data. -/
def exRows : List (List JValue) :=
  [[.str "x"], [.str "SSID", .str "NIN", .str "Full Name"],
   [.str "a1", .str "n1", .str "john"]]

/-- C8 witness: the theorem applied to a concrete grid, where the detector
picks the keyword-dense row at index 1 and dominates the other rows. -/
theorem c8_witness :
    rowScore (exRows.getD 0 []) ≤ rowScore (exRows.getD (findBestHeaderRowIndex exRows) []) ∧
    rowScore (exRows.getD 2 []) ≤ rowScore (exRows.getD (findBestHeaderRowIndex exRows) []) ∧
    findBestHeaderRowIndex exRows = findBestHeaderRowIndex (exRows.take 10) :=
  ⟨(c8_header_detector exRows).2.2.2.1 0 (by decide),
   (c8_header_detector exRows).2.2.2.1 2 (by decide),
   (c8_header_detector exRows).1⟩

theorem ssidMsgs_spec (es ss : String) (h : idAgree es ss = false) :
    ∃ msg ∈ ssidMismatchMsgs es ss, strContains msg "SSID" = true := by
  have hne : ¬(es = "" ∧ ss = "") := by
    rintro ⟨h1, h2⟩
    subst h1; subst h2
    simp [idAgree] at h
  unfold ssidMismatchMsgs
  by_cases h1 : es ≠ "" ∧ ss ≠ ""
  · rw [if_pos h1]
    refine ⟨_, List.mem_singleton_self _, ?_⟩
    exact strContains_append_left _ _ _ (strContains_append_left _ _ _
      (strContains_append_left _ _ _ (strContains_append_left _ _ _ (by decide))))
  · rw [if_neg h1]
    by_cases h2 : es ≠ ""
    · rw [if_pos h2]
      exact ⟨_, List.mem_singleton_self _, by decide⟩
    · rw [if_neg h2]
      push_neg at h2
      have h3 : ss ≠ "" := fun hss => hne ⟨h2, hss⟩
      rw [if_pos h3]
      refine ⟨_, List.mem_singleton_self _, ?_⟩
      exact strContains_append_left _ _ _ (strContains_append_left _ _ _ (by decide))

theorem ninMsgs_spec (en sn : String) (h : idAgree en sn = false) :
    ∃ msg ∈ ninMismatchMsgs en sn, strContains msg "NIN" = true := by
  have hne : ¬(en = "" ∧ sn = "") := by
    rintro ⟨h1, h2⟩
    subst h1; subst h2
    simp [idAgree] at h
  unfold ninMismatchMsgs
  by_cases h1 : en ≠ "" ∧ sn ≠ ""
  · rw [if_pos h1]
    refine ⟨_, List.mem_singleton_self _, ?_⟩
    exact strContains_append_left _ _ _ (strContains_append_left _ _ _
      (strContains_append_left _ _ _ (strContains_append_left _ _ _ (by decide))))
  · rw [if_neg h1]
    by_cases h2 : en ≠ ""
    · rw [if_pos h2]
      exact ⟨_, List.mem_singleton_self _, by decide⟩
    · rw [if_neg h2]
      push_neg at h2
      have h3 : sn ≠ "" := fun hsn => hne ⟨h2, hsn⟩
      rw [if_pos h3]
      refine ⟨_, List.mem_singleton_self _, ?_⟩
      exact strContains_append_left _ _ _ (strContains_append_left _ _ _ (by decide))

theorem nameMsg_contains (nameSim : Nat) (nm srcName : String) :
    strContains (nameMismatchMsg nameSim nm srcName) "Name similarity" = true := by
  unfold nameMismatchMsg
  exact strContains_append_left _ _ _ (strContains_append_left _ _ _
    (strContains_append_left _ _ _ (strContains_append_left _ _ _
      (strContains_append_left _ _ _ (strContains_append_left _ _ _ (by decide))))))

/-- C1: whenever the evaluation reaches a chosen best match whose source
record has a resolvable name, the verdict is Valid exactly when the SSID
agreement check, the NIN agreement check, and the name-similarity (at least
90) check all hold; if at least one fails the verdict is Partial Match and
the reason mentions every failing check by name ("SSID", "NIN",
"Name similarity"). -/
theorem c1_verdict_and_reason (sim : Sim) (entry : Entry) (bySSID byNIN : SMap)
    (shr ehr : Option Entry) (best : IEntry)
    (hname : extractFullName entry ehr ≠ "")
    (hids : ¬(extractField entry entrySSIDFields ehr = "" ∧
              extractField entry entryNINFields ehr = ""))
    (hpot : gatherMatches bySSID byNIN (extractField entry entrySSIDFields ehr)
        (extractField entry entryNINFields ehr) ≠ [])
    (hbest : chooseBest sim (extractField entry entrySSIDFields ehr)
        (extractField entry entryNINFields ehr) (extractFullName entry ehr) shr
        (gatherMatches bySSID byNIN (extractField entry entrySSIDFields ehr)
          (extractField entry entryNINFields ehr)) = .ok best)
    (hsrc : extractFullName best.2 shr ≠ "") :
    ((getMatchStatus sim entry bySSID byNIN shr ehr).status = .valid ↔
      (idAgree (extractField entry entrySSIDFields ehr)
          (extractField best.2 srcSSIDFields shr) = true ∧
       idAgree (extractField entry entryNINFields ehr)
          (extractField best.2 srcNINFields shr) = true ∧
       SIMILARITY_THRESHOLD ≤
         simOrDefault sim (extractFullName entry ehr) (extractFullName best.2 shr))) ∧
    (¬(idAgree (extractField entry entrySSIDFields ehr)
          (extractField best.2 srcSSIDFields shr) = true ∧
       idAgree (extractField entry entryNINFields ehr)
          (extractField best.2 srcNINFields shr) = true ∧
       SIMILARITY_THRESHOLD ≤
         simOrDefault sim (extractFullName entry ehr) (extractFullName best.2 shr)) →
      (getMatchStatus sim entry bySSID byNIN shr ehr).status = .partMatch ∧
      (idAgree (extractField entry entrySSIDFields ehr)
          (extractField best.2 srcSSIDFields shr) = false →
        strContains (getMatchStatus sim entry bySSID byNIN shr ehr).reason "SSID" = true) ∧
      (idAgree (extractField entry entryNINFields ehr)
          (extractField best.2 srcNINFields shr) = false →
        strContains (getMatchStatus sim entry bySSID byNIN shr ehr).reason "NIN" = true) ∧
      (simOrDefault sim (extractFullName entry ehr) (extractFullName best.2 shr) <
          SIMILARITY_THRESHOLD →
        strContains (getMatchStatus sim entry bySSID byNIN shr ehr).reason
          "Name similarity" = true)) := by
  have heq : getMatchStatus sim entry bySSID byNIN shr ehr =
      classify sim (extractField entry entrySSIDFields ehr)
        (extractField entry entryNINFields ehr) (extractFullName entry ehr) shr best := by
    unfold getMatchStatus getMatchStatusCore
    cases hg : gatherMatches bySSID byNIN (extractField entry entrySSIDFields ehr)
        (extractField entry entryNINFields ehr) with
    | nil => exact absurd hg hpot
    | cons x xs =>
        rw [hg] at hbest
        simp [hname, hids, hg, hbest, matchAgainst, unwrapResult]
  rw [heq]
  unfold classify
  simp only [if_neg hsrc]
  set ssidM := idAgree (extractField entry entrySSIDFields ehr)
    (extractField best.2 srcSSIDFields shr) with hssidM
  set ninM := idAgree (extractField entry entryNINFields ehr)
    (extractField best.2 srcNINFields shr) with hninM
  set nsim := simOrDefault sim (extractFullName entry ehr) (extractFullName best.2 shr)
    with hnsim
  by_cases hall : (ssidM && ninM && decide (SIMILARITY_THRESHOLD ≤ nsim)) = true
  · rw [if_pos hall]
    simp only [Bool.and_eq_true, decide_eq_true_eq] at hall
    constructor
    · constructor
      · intro _
        exact ⟨hall.1.1, hall.1.2, hall.2⟩
      · intro _
        rfl
    · intro habs
      exact absurd ⟨hall.1.1, hall.1.2, hall.2⟩ habs
  · rw [if_neg hall]
    constructor
    · constructor
      · intro habs
        exact Status.noConfusion habs
      · intro htriple
        exact absurd (by
          simp only [Bool.and_eq_true, decide_eq_true_eq]
          exact ⟨⟨htriple.1, htriple.2.1⟩, htriple.2.2⟩) hall
    · intro _
      refine ⟨rfl, ?_, ?_, ?_⟩
      · intro hfail
        obtain ⟨msg, hmem, hcont⟩ := ssidMsgs_spec _ _ hfail
        refine strContains_append_right _ _ _ (joinSep_contains _ _ _ msg ?_ hcont)
        rw [if_neg (by rw [hfail]; exact Bool.false_ne_true)]
        exact List.mem_append_left _ (List.mem_append_left _ hmem)
      · intro hfail
        obtain ⟨msg, hmem, hcont⟩ := ninMsgs_spec _ _ hfail
        refine strContains_append_right _ _ _ (joinSep_contains _ _ _ msg ?_ hcont)
        refine List.mem_append_left _ (List.mem_append_right _ ?_)
        rw [if_neg (by rw [hfail]; exact Bool.false_ne_true)]
        exact hmem
      · intro hfail
        refine strContains_append_right _ _ _ (joinSep_contains _ _ _
          (nameMismatchMsg nsim (extractFullName entry ehr) (extractFullName best.2 shr))
          ?_ (nameMsg_contains _ _ _))
        refine List.mem_append_right _ ?_
        rw [if_neg (by
          simp only [decide_eq_true_eq]
          omega)]
        exact List.mem_singleton_self _

/-- Source record of the C1 witness (Scenario B: NIN disagrees). -/
def exBSrc : Entry := [("SSID", .str "A1"), ("NIN", .str "N1"), ("FULL NAME", .str "John Smith")]

/-- Candidate of the C1 witness (Scenario B). -/
def exBCand : Entry := [("SSID", .str "A1"), ("NIN", .str "N2"), ("FULL NAME", .str "John Smith")]

/-- C1 witness: on Scenario B the theorem yields the Partial Match verdict
with a reason mentioning the failing NIN check. -/
theorem c1_witness :
    (getMatchStatus exSimEq exBCand (buildIndexes [exBSrc] none).1
        (buildIndexes [exBSrc] none).2 none none).status = .partMatch ∧
    strContains (getMatchStatus exSimEq exBCand (buildIndexes [exBSrc] none).1
        (buildIndexes [exBSrc] none).2 none none).reason "NIN" = true := by
  have h := c1_verdict_and_reason exSimEq exBCand (buildIndexes [exBSrc] none).1
    (buildIndexes [exBSrc] none).2 none none (0, exBSrc)
    (by decide) (by decide) (by decide) (by rfl) (by decide)
  have h2 := h.2 (by decide)
  exact ⟨h2.1, h2.2.2.1 (by decide)⟩

/-! Normalization invariance: two values are equivalent when they differ
only in letter case or surrounding whitespace; the match status is invariant
under replacing any field value (in either dataset) by an equivalent one. -/

/-- Value equivalence: string values with the same trim-then-lower-case
image (differing only in case or surrounding whitespace), other values
equal. -/
def vEquivB : JValue → JValue → Bool
  | .str s, .str t =>
      lowerCharList (trimCharList s.data) == lowerCharList (trimCharList t.data)
  | .num a, .num b => a == b
  | .null, .null => true
  | _, _ => false

/-- Entry equivalence: same keys in the same order, values equivalent. -/
def entryEquivB : Entry → Entry → Bool
  | [], [] => true
  | (k, v) :: e, (k', v') :: e' => k == k' && vEquivB v v' && entryEquivB e e'
  | _, _ => false

/-- Optional-entry equivalence (for the optional header rows). -/
def optEntryEquivB : Option Entry → Option Entry → Bool
  | none, none => true
  | some h, some h' => entryEquivB h h'
  | _, _ => false

theorem mk_eq_empty_iff (l : List Char) : (String.mk l = "") ↔ l = [] := by
  simp [String.ext_iff]

theorem lowerCharList_eq_nil (l : List Char) : lowerCharList l = [] ↔ l = [] := by
  simp [lowerCharList]

theorem eqv_null (v w : JValue) (h : vEquivB v w = true) :
    v = JValue.null ↔ w = JValue.null := by
  cases v <;> cases w <;> simp [vEquivB] at h ⊢

theorem eqv_str_data (s t : String) (h : vEquivB (.str s) (.str t) = true) :
    lowerCharList (trimCharList s.data) = lowerCharList (trimCharList t.data) := by
  simpa [vEquivB] using h

theorem eqv_normalize (v w : JValue) (h : vEquivB v w = true) :
    normalize v = normalize w := by
  cases v with
  | null => cases w with
      | null => rfl
      | str t => simp [vEquivB] at h
      | num b => simp [vEquivB] at h
  | num a =>
      cases w with
      | null => simp [vEquivB] at h
      | str t => simp [vEquivB] at h
      | num b =>
          have : a = b := by simpa [vEquivB] using h
          subst this
          rfl
  | str s =>
      cases w with
      | null => simp [vEquivB] at h
      | num b => simp [vEquivB] at h
      | str t =>
          show String.mk (lowerCharList (trimCharList s.data)) =
            String.mk (lowerCharList (trimCharList t.data))
          rw [eqv_str_data s t h]

theorem eqv_trimEmpty (v w : JValue) (h : vEquivB v w = true) :
    jsTrim (jstr v) = "" ↔ jsTrim (jstr w) = "" := by
  cases v with
  | null => cases w with
      | null => exact Iff.rfl
      | str t => simp [vEquivB] at h
      | num b => simp [vEquivB] at h
  | num a =>
      cases w with
      | null => simp [vEquivB] at h
      | str t => simp [vEquivB] at h
      | num b =>
          have : a = b := by simpa [vEquivB] using h
          subst this
          exact Iff.rfl
  | str s =>
      cases w with
      | null => simp [vEquivB] at h
      | num b => simp [vEquivB] at h
      | str t =>
          have hd := eqv_str_data s t h
          show String.mk (trimCharList s.data) = "" ↔ String.mk (trimCharList t.data) = ""
          rw [mk_eq_empty_iff, mk_eq_empty_iff, ← lowerCharList_eq_nil (trimCharList s.data),
            ← lowerCharList_eq_nil (trimCharList t.data), hd]

theorem eqv_tryVal (v w : JValue) (h : vEquivB v w = true) :
    normStr (jsTrim (jstr v)) = normStr (jsTrim (jstr w)) := by
  cases v with
  | null => cases w with
      | null => rfl
      | str t => simp [vEquivB] at h
      | num b => simp [vEquivB] at h
  | num a =>
      cases w with
      | null => simp [vEquivB] at h
      | str t => simp [vEquivB] at h
      | num b =>
          have : a = b := by simpa [vEquivB] using h
          subst this
          rfl
  | str s =>
      cases w with
      | null => simp [vEquivB] at h
      | num b => simp [vEquivB] at h
      | str t =>
          have hd := eqv_str_data s t h
          show String.mk (lowerCharList (trimCharList (trimCharList s.data))) =
            String.mk (lowerCharList (trimCharList (trimCharList t.data)))
          rw [← trimLowerComm (trimCharList s.data), ← trimLowerComm (trimCharList t.data), hd]

theorem eqv_normalizeKey (v w : JValue) (h : vEquivB v w = true) :
    normalizeKey (jstr v) = normalizeKey (jstr w) := by
  cases v with
  | null => cases w with
      | null => rfl
      | str t => simp [vEquivB] at h
      | num b => simp [vEquivB] at h
  | num a =>
      cases w with
      | null => simp [vEquivB] at h
      | str t => simp [vEquivB] at h
      | num b =>
          have : a = b := by simpa [vEquivB] using h
          subst this
          rfl
  | str s =>
      cases w with
      | null => simp [vEquivB] at h
      | num b => simp [vEquivB] at h
      | str t =>
          have hd := eqv_str_data s t h
          have hfil : (lowerCharList s.data).filter isKeyAlnum =
              (lowerCharList t.data).filter isKeyAlnum := by
            rw [← filterTrim isKeyAlnum ws_not_alnum (lowerCharList s.data),
              ← filterTrim isKeyAlnum ws_not_alnum (lowerCharList t.data),
              trimLowerComm s.data, trimLowerComm t.data, hd]
          show String.mk (synonymFolds.foldl (fun acc pr => replaceFirst pr.1 pr.2 acc)
              (trimUnderscores ((lowerCharList s.data).filter isKeyAlnum))) =
            String.mk (synonymFolds.foldl (fun acc pr => replaceFirst pr.1 pr.2 acc)
              (trimUnderscores ((lowerCharList t.data).filter isKeyAlnum)))
          rw [hfil]

/-- Optional-value equivalence, the image of entryGet on equivalent
entries. -/
def optVEquivB : Option JValue → Option JValue → Bool
  | none, none => true
  | some v, some w => vEquivB v w
  | _, _ => false

theorem eqv_entryGet (k : String) : ∀ (e e' : Entry), entryEquivB e e' = true →
    optVEquivB (entryGet e k) (entryGet e' k) = true := by
  intro e
  induction e with
  | nil =>
      intro e' h
      cases e' with
      | nil => rfl
      | cons p rest => simp [entryEquivB] at h
  | cons p rest ih =>
      intro e' h
      cases e' with
      | nil =>
          obtain ⟨k1, v1⟩ := p
          simp [entryEquivB] at h
      | cons p' rest' =>
          obtain ⟨k1, v1⟩ := p
          obtain ⟨k1', v1'⟩ := p'
          simp only [entryEquivB, Bool.and_eq_true, beq_iff_eq] at h
          obtain ⟨⟨hk1, hv1⟩, hrest⟩ := h
          subst hk1
          unfold entryGet
          by_cases hkk : k1 = k
          · rw [if_pos hkk, if_pos hkk]
            simpa [optVEquivB] using hv1
          · rw [if_neg hkk, if_neg hkk]
            exact ih rest' hrest

theorem eqv_tryKeyed (k : String) (e e' : Entry) (h : entryEquivB e e' = true) :
    tryKeyed e k = tryKeyed e' k := by
  have hg := eqv_entryGet k e e' h
  unfold tryKeyed
  cases h1 : entryGet e k with
  | none =>
      cases h2 : entryGet e' k with
      | none => rfl
      | some w => rw [h1, h2] at hg; simp [optVEquivB] at hg
  | some v =>
      cases h2 : entryGet e' k with
      | none => rw [h1, h2] at hg; simp [optVEquivB] at hg
      | some w =>
          rw [h1, h2] at hg
          simp only [optVEquivB] at hg
          cases v with
          | null =>
              cases w with
              | null => rfl
              | str t => simp [vEquivB] at hg
              | num b => simp [vEquivB] at hg
          | num a =>
              cases w with
              | null => simp [vEquivB] at hg
              | str t => simp [vEquivB] at hg
              | num b =>
                  have : a = b := by simpa [vEquivB] using hg
                  subst this
                  rfl
          | str s =>
              cases w with
              | null => simp [vEquivB] at hg
              | num b => simp [vEquivB] at hg
              | str t =>
                  have htr := eqv_trimEmpty _ _ hg
                  have hval := eqv_tryVal _ _ hg
                  show (if jsTrim (jstr (JValue.str s)) = "" then none
                      else some (normStr (jsTrim (jstr (JValue.str s))))) =
                    (if jsTrim (jstr (JValue.str t)) = "" then none
                      else some (normStr (jsTrim (jstr (JValue.str t)))))
                  by_cases hsv : jsTrim (jstr (JValue.str s)) = ""
                  · rw [if_pos hsv, if_pos (htr.mp hsv)]
                  · rw [if_neg hsv, if_neg (fun hc => hsv (htr.mpr hc)), hval]

theorem eqv_scanNormalized (nf : String) : ∀ (e e' : Entry), entryEquivB e e' = true →
    scanNormalized nf e = scanNormalized nf e' := by
  intro e
  induction e with
  | nil =>
      intro e' h
      cases e' with
      | nil => rfl
      | cons p rest => simp [entryEquivB] at h
  | cons p rest ih =>
      intro e' h
      cases e' with
      | nil =>
          obtain ⟨k1, v1⟩ := p
          simp [entryEquivB] at h
      | cons p' rest' =>
          obtain ⟨k1, v1⟩ := p
          obtain ⟨k1', v1'⟩ := p'
          simp only [entryEquivB, Bool.and_eq_true, beq_iff_eq] at h
          obtain ⟨⟨hk1, hv1⟩, hrest⟩ := h
          subst hk1
          unfold scanNormalized
          have hnull := eqv_null v1 v1' hv1
          by_cases hc : normalizeKey k1 = nf ∧ v1 ≠ JValue.null
          · have hc' : normalizeKey k1 = nf ∧ v1' ≠ JValue.null :=
              ⟨hc.1, fun hn => hc.2 (hnull.mpr hn)⟩
            rw [if_pos hc, if_pos hc']
            have htr := eqv_trimEmpty v1 v1' hv1
            by_cases hsv : jsTrim (jstr v1) = ""
            · rw [if_pos hsv, if_pos (htr.mp hsv)]
              exact ih rest' hrest
            · rw [if_neg hsv, if_neg (fun hx => hsv (htr.mpr hx)), eqv_tryVal v1 v1' hv1]
          · have hc' : ¬(normalizeKey k1 = nf ∧ v1' ≠ JValue.null) := by
              intro hx
              exact hc ⟨hx.1, fun hn => hx.2 (hnull.mp hn)⟩
            rw [if_neg hc, if_neg hc']
            exact ih rest' hrest

theorem eqv_buildFieldMapAux : ∀ (a b : Entry), entryEquivB a b = true →
    ∀ m, buildFieldMapAux m a = buildFieldMapAux m b := by
  intro a
  induction a with
  | nil =>
      intro b h m
      cases b with
      | nil => rfl
      | cons p rest => simp [entryEquivB] at h
  | cons p rest ih =>
      intro b h m
      cases b with
      | nil =>
          obtain ⟨k1, v1⟩ := p
          simp [entryEquivB] at h
      | cons p' rest' =>
          obtain ⟨k1, v1⟩ := p
          obtain ⟨k1', v1'⟩ := p'
          simp only [entryEquivB, Bool.and_eq_true, beq_iff_eq] at h
          obtain ⟨⟨hk1, hv1⟩, hrest⟩ := h
          subst hk1
          cases v1 with
          | null =>
              cases v1' with
              | null => exact ih rest' hrest m
              | str t => simp [vEquivB] at hv1
              | num b2 => simp [vEquivB] at hv1
          | num a2 =>
              cases v1' with
              | null => simp [vEquivB] at hv1
              | str t => simp [vEquivB] at hv1
              | num b2 =>
                  have : a2 = b2 := by simpa [vEquivB] using hv1
                  subst this
                  unfold buildFieldMapAux
                  show (if normalizeKey (jstr (JValue.num a2)) = "" then buildFieldMapAux m rest
                      else buildFieldMapAux (fmSet m (normalizeKey (jstr (JValue.num a2))) k1) rest) =
                    (if normalizeKey (jstr (JValue.num a2)) = "" then buildFieldMapAux m rest'
                      else buildFieldMapAux (fmSet m (normalizeKey (jstr (JValue.num a2))) k1) rest')
                  by_cases hz : normalizeKey (jstr (JValue.num a2)) = ""
                  · rw [if_pos hz, if_pos hz]
                    exact ih rest' hrest m
                  · rw [if_neg hz, if_neg hz]
                    exact ih rest' hrest _
          | str s =>
              cases v1' with
              | null => simp [vEquivB] at hv1
              | num b2 => simp [vEquivB] at hv1
              | str t =>
                  have hnk := eqv_normalizeKey (JValue.str s) (JValue.str t) hv1
                  unfold buildFieldMapAux
                  show (if normalizeKey (jstr (JValue.str s)) = "" then buildFieldMapAux m rest
                      else buildFieldMapAux (fmSet m (normalizeKey (jstr (JValue.str s))) k1) rest) =
                    (if normalizeKey (jstr (JValue.str t)) = "" then buildFieldMapAux m rest'
                      else buildFieldMapAux (fmSet m (normalizeKey (jstr (JValue.str t))) k1) rest')
                  rw [← hnk]
                  by_cases hz : normalizeKey (jstr (JValue.str s)) = ""
                  · rw [if_pos hz, if_pos hz]
                    exact ih rest' hrest m
                  · rw [if_neg hz, if_neg hz]
                    exact ih rest' hrest _

theorem eqv_buildFieldMap (hh hh' : Entry) (h : entryEquivB hh hh' = true) :
    buildFieldMap hh = buildFieldMap hh' :=
  eqv_buildFieldMapAux hh hh' h []

theorem eqv_extractViaHeader (e e' : Entry) (h : entryEquivB e e' = true)
    (fm : List (String × String)) :
    ∀ fields, extractViaHeader e fm fields = extractViaHeader e' fm fields := by
  intro fields
  induction fields with
  | nil => rfl
  | cons f fs ih =>
      simp only [extractViaHeader]
      cases fmGet fm (normalizeKey f) with
      | none => exact ih
      | some k =>
          show (if k = "" then extractViaHeader e fm fs
              else match tryKeyed e k with
                | some r => some r
                | none => extractViaHeader e fm fs) =
            (if k = "" then extractViaHeader e' fm fs
              else match tryKeyed e' k with
                | some r => some r
                | none => extractViaHeader e' fm fs)
          by_cases hk : k = ""
          · rw [if_pos hk, if_pos hk]
            exact ih
          · rw [if_neg hk, if_neg hk, eqv_tryKeyed k e e' h]
            cases tryKeyed e' k with
            | some r => rfl
            | none => exact ih

theorem eqv_extractDirect (e e' : Entry) (h : entryEquivB e e' = true) :
    ∀ fields, extractDirect e fields = extractDirect e' fields := by
  intro fields
  induction fields with
  | nil => rfl
  | cons f fs ih =>
      simp only [extractDirect]
      rw [eqv_tryKeyed f e e' h]
      cases tryKeyed e' f with
      | some r => rfl
      | none =>
          rw [eqv_scanNormalized (normalizeKey f) e e' h]
          cases scanNormalized (normalizeKey f) e' with
          | some r => rfl
          | none => exact ih

theorem eqv_extractField (e e' : Entry) (h : entryEquivB e e' = true)
    (hr hr' : Option Entry) (hh : optEntryEquivB hr hr' = true) (fields : List String) :
    extractField e fields hr = extractField e' fields hr' := by
  cases hr with
  | none =>
      cases hr' with
      | none =>
          unfold extractField
          rw [eqv_extractDirect e e' h fields]
      | some x => simp [optEntryEquivB] at hh
  | some x =>
      cases hr' with
      | none => simp [optEntryEquivB] at hh
      | some x' =>
          have hx : entryEquivB x x' = true := by simpa [optEntryEquivB] using hh
          unfold extractField
          show (match extractViaHeader e (buildFieldMap x) fields with
              | some r => r
              | none => (extractDirect e fields).getD "") =
            (match extractViaHeader e' (buildFieldMap x') fields with
              | some r => r
              | none => (extractDirect e' fields).getD "")
          rw [eqv_buildFieldMap x x' hx, eqv_extractViaHeader e e' h (buildFieldMap x') fields]
          cases extractViaHeader e' (buildFieldMap x') fields with
          | some r => rfl
          | none => rw [eqv_extractDirect e e' h fields]

theorem eqv_extractFullName (e e' : Entry) (h : entryEquivB e e' = true)
    (hr hr' : Option Entry) (hh : optEntryEquivB hr hr' = true) :
    extractFullName e hr = extractFullName e' hr' := by
  unfold extractFullName
  rw [eqv_extractField e e' h hr hr' hh fullNameFields,
    eqv_extractField e e' h hr hr' hh ["firstname", "first_name", "first"],
    eqv_extractField e e' h hr hr' hh ["middlename", "middle_name", "middle"],
    eqv_extractField e e' h hr hr' hh ["lastname", "last_name", "last", "surname"]]

/-- Equivalence of indexed records: same source position, equivalent
record. -/
def ieEquivB : IEntry → IEntry → Bool
  | (i, e), (i', e') => i == i' && entryEquivB e e'

/-- Equivalence of optional indexed records. -/
def optIEquivB : Option IEntry → Option IEntry → Bool
  | none, none => true
  | some a, some b => ieEquivB a b
  | _, _ => false

/-- Pairwise equivalence of source datasets. -/
def listEntryEquivB : List Entry → List Entry → Bool
  | [], [] => true
  | e :: es, e' :: es' => entryEquivB e e' && listEntryEquivB es es'
  | _, _ => false

/-- Pairwise equivalence of gathered-match lists. -/
def listIEquivB : List IEntry → List IEntry → Bool
  | [], [] => true
  | a :: l, b :: l' => ieEquivB a b && listIEquivB l l'
  | _, _ => false

/-- Pairwise equivalence of index maps: equal keys, equivalent records. -/
def smapEquivB : SMap → SMap → Bool
  | [], [] => true
  | (k, a) :: m, (k', b) :: m' => k == k' && ieEquivB a b && smapEquivB m m'
  | _, _ => false

theorem eqv_mapSet (k : String) (a b : IEntry) (hab : ieEquivB a b = true) :
    ∀ (m m' : SMap), smapEquivB m m' = true →
      smapEquivB (mapSet m k a) (mapSet m' k b) = true := by
  intro m
  induction m with
  | nil =>
      intro m' h
      cases m' with
      | nil => simpa [smapEquivB, mapSet] using hab
      | cons p rest => simp [smapEquivB] at h
  | cons p rest ih =>
      intro m' h
      cases m' with
      | nil =>
          obtain ⟨k1, a1⟩ := p
          simp [smapEquivB] at h
      | cons p' rest' =>
          obtain ⟨k1, a1⟩ := p
          obtain ⟨k1', b1⟩ := p'
          simp only [smapEquivB, Bool.and_eq_true, beq_iff_eq] at h
          obtain ⟨⟨hk1, hab1⟩, hrest⟩ := h
          subst hk1
          unfold mapSet
          by_cases hkk : k1 = k
          · rw [if_pos hkk, if_pos hkk]
            simp only [smapEquivB, Bool.and_eq_true, beq_iff_eq]
            exact ⟨⟨by trivial, hab⟩, hrest⟩
          · rw [if_neg hkk, if_neg hkk]
            simp only [smapEquivB, Bool.and_eq_true, beq_iff_eq]
            exact ⟨⟨by trivial, hab1⟩, ih rest' hrest⟩

theorem eqv_mapGet (k : String) : ∀ (m m' : SMap), smapEquivB m m' = true →
    optIEquivB (mapGet m k) (mapGet m' k) = true := by
  intro m
  induction m with
  | nil =>
      intro m' h
      cases m' with
      | nil => rfl
      | cons p rest => simp [smapEquivB] at h
  | cons p rest ih =>
      intro m' h
      cases m' with
      | nil =>
          obtain ⟨k1, a1⟩ := p
          simp [smapEquivB] at h
      | cons p' rest' =>
          obtain ⟨k1, a1⟩ := p
          obtain ⟨k1', b1⟩ := p'
          simp only [smapEquivB, Bool.and_eq_true, beq_iff_eq] at h
          obtain ⟨⟨hk1, hab1⟩, hrest⟩ := h
          subst hk1
          unfold mapGet
          by_cases hkk : k1 = k
          · rw [if_pos hkk, if_pos hkk]
            simpa [optIEquivB] using hab1
          · rw [if_neg hkk, if_neg hkk]
            exact ih rest' hrest

theorem eqv_buildIdxAux (shr shr' : Option Entry) (hsh : optEntryEquivB shr shr' = true) :
    ∀ (src src' : List Entry), listEntryEquivB src src' = true →
      ∀ i (m1 m1' m2 m2' : SMap), smapEquivB m1 m1' = true → smapEquivB m2 m2' = true →
        smapEquivB (buildIdxAux shr i src (m1, m2)).1 (buildIdxAux shr' i src' (m1', m2')).1 = true ∧
        smapEquivB (buildIdxAux shr i src (m1, m2)).2 (buildIdxAux shr' i src' (m1', m2')).2 = true := by
  intro src
  induction src with
  | nil =>
      intro src' h i m1 m1' m2 m2' h1 h2
      cases src' with
      | nil => exact ⟨h1, h2⟩
      | cons r rest => simp [listEntryEquivB] at h
  | cons r rest ih =>
      intro src' h i m1 m1' m2 m2' h1 h2
      cases src' with
      | nil => simp [listEntryEquivB] at h
      | cons r' rest' =>
          simp only [listEntryEquivB, Bool.and_eq_true] at h
          obtain ⟨hr, hrest⟩ := h
          have hssid := eqv_extractField r r' hr shr shr' hsh idxSSIDFields
          have hnin := eqv_extractField r r' hr shr shr' hsh idxNINFields
          unfold buildIdxAux
          simp only [hssid, hnin]
          have hie : ieEquivB (i, r) (i, r') = true := by
            simp only [ieEquivB, Bool.and_eq_true, beq_iff_eq]
            exact ⟨by trivial, hr⟩
          by_cases hz1 : extractField r' idxSSIDFields shr' = "" <;>
            by_cases hz2 : extractField r' idxNINFields shr' = ""
          · rw [if_pos hz1, if_pos hz1, if_pos hz2, if_pos hz2]
            exact ih rest' hrest (i + 1) m1 m1' m2 m2' h1 h2
          · rw [if_pos hz1, if_pos hz1, if_neg hz2, if_neg hz2]
            exact ih rest' hrest (i + 1) m1 m1' _ _ h1
              (eqv_mapSet _ _ _ hie m2 m2' h2)
          · rw [if_neg hz1, if_neg hz1, if_pos hz2, if_pos hz2]
            exact ih rest' hrest (i + 1) _ _ m2 m2'
              (eqv_mapSet _ _ _ hie m1 m1' h1) h2
          · rw [if_neg hz1, if_neg hz1, if_neg hz2, if_neg hz2]
            exact ih rest' hrest (i + 1) _ _ _ _
              (eqv_mapSet _ _ _ hie m1 m1' h1) (eqv_mapSet _ _ _ hie m2 m2' h2)

theorem eqv_buildIndexes (src src' : List Entry) (h : listEntryEquivB src src' = true)
    (shr shr' : Option Entry) (hsh : optEntryEquivB shr shr' = true) :
    smapEquivB (buildIndexes src shr).1 (buildIndexes src' shr').1 = true ∧
    smapEquivB (buildIndexes src shr).2 (buildIndexes src' shr').2 = true :=
  eqv_buildIdxAux shr shr' hsh src src' h 0 [] [] [] [] rfl rfl

theorem eqv_any_fst (n : Nat) : ∀ (l l' : List IEntry), listIEquivB l l' = true →
    l.any (fun p => p.1 == n) = l'.any (fun p => p.1 == n) := by
  intro l
  induction l with
  | nil =>
      intro l' h
      cases l' with
      | nil => rfl
      | cons b rest => simp [listIEquivB] at h
  | cons a rest ih =>
      intro l' h
      cases l' with
      | nil => obtain ⟨i, e⟩ := a; simp [listIEquivB] at h
      | cons b rest' =>
          obtain ⟨i, e⟩ := a
          obtain ⟨i', e'⟩ := b
          simp only [listIEquivB, ieEquivB, Bool.and_eq_true, beq_iff_eq] at h
          obtain ⟨⟨hi, _⟩, hrest⟩ := h
          subst hi
          simp only [List.any_cons]
          rw [ih rest' hrest]

theorem eqv_listIAppend : ∀ (l1 l1' : List IEntry), listIEquivB l1 l1' = true →
    ∀ (l2 l2' : List IEntry), listIEquivB l2 l2' = true →
      listIEquivB (l1 ++ l2) (l1' ++ l2') = true := by
  intro l1
  induction l1 with
  | nil =>
      intro l1' h
      cases l1' with
      | nil => intro l2 l2' h2; exact h2
      | cons b rest => simp [listIEquivB] at h
  | cons a rest ih =>
      intro l1' h
      cases l1' with
      | nil => obtain ⟨i, e⟩ := a; simp [listIEquivB] at h
      | cons b rest' =>
          intro l2 l2' h2
          simp only [listIEquivB, Bool.and_eq_true] at h
          simp only [List.cons_append, listIEquivB, Bool.and_eq_true]
          exact ⟨h.1, ih rest' h.2 l2 l2' h2⟩

theorem eqv_gatherSSID (m1 m1' : SMap) (h1 : smapEquivB m1 m1' = true) (es : String) :
    listIEquivB (gatherSSID m1 es) (gatherSSID m1' es) = true := by
  unfold gatherSSID
  by_cases hes : es = ""
  · rw [if_pos hes, if_pos hes]; rfl
  · rw [if_neg hes, if_neg hes]
    have hg := eqv_mapGet es m1 m1' h1
    cases hx1 : mapGet m1 es with
    | none =>
        cases hx2 : mapGet m1' es with
        | none => rfl
        | some b => rw [hx1, hx2] at hg; simp [optIEquivB] at hg
    | some a =>
        cases hx2 : mapGet m1' es with
        | none => rw [hx1, hx2] at hg; simp [optIEquivB] at hg
        | some b =>
            rw [hx1, hx2] at hg
            simp only [optIEquivB] at hg
            simpa [listIEquivB] using hg

theorem eqv_gatherMatches (m1 m1' m2 m2' : SMap) (h1 : smapEquivB m1 m1' = true)
    (h2 : smapEquivB m2 m2' = true) (es en : String) :
    listIEquivB (gatherMatches m1 m2 es en) (gatherMatches m1' m2' es en) = true := by
  unfold gatherMatches
  apply eqv_listIAppend _ _ (eqv_gatherSSID m1 m1' h1 es)
  by_cases hen : en = ""
  · rw [if_pos hen, if_pos hen]; rfl
  · rw [if_neg hen, if_neg hen]
    have hg := eqv_mapGet en m2 m2' h2
    cases hy1 : mapGet m2 en with
    | none =>
        cases hy2 : mapGet m2' en with
        | none => rfl
        | some d => rw [hy1, hy2] at hg; simp [optIEquivB] at hg
    | some c =>
        cases hy2 : mapGet m2' en with
        | none => rw [hy1, hy2] at hg; simp [optIEquivB] at hg
        | some d =>
            rw [hy1, hy2] at hg
            simp only [optIEquivB] at hg
            have hcd : c.1 = d.1 := by
              obtain ⟨ci, ce⟩ := c
              obtain ⟨di, de⟩ := d
              simp only [ieEquivB, Bool.and_eq_true, beq_iff_eq] at hg
              exact hg.1
            have hany := eqv_any_fst c.1 (gatherSSID m1 es) (gatherSSID m1' es)
              (eqv_gatherSSID m1 m1' h1 es)
            show listIEquivB
              (if ((gatherSSID m1 es).any fun p => p.1 == c.1) = true then [] else [c])
              (if ((gatherSSID m1' es).any fun p => p.1 == d.1) = true then [] else [d]) = true
            rw [← hcd, hany]
            by_cases hmem : (gatherSSID m1' es).any (fun p => p.1 == c.1) = true
            · rw [if_pos hmem, if_pos hmem]
              rfl
            · rw [if_neg hmem, if_neg hmem]
              simpa [listIEquivB] using hg

theorem eqv_scoreRecord (sim : Sim) (es en nm : String) (shr shr' : Option Entry)
    (hsh : optEntryEquivB shr shr' = true) (r r' : Entry) (hr : entryEquivB r r' = true) :
    scoreRecord sim es en nm shr r = scoreRecord sim es en nm shr' r' := by
  unfold scoreRecord
  rw [eqv_extractField r r' hr shr shr' hsh srcSSIDFields,
    eqv_extractField r r' hr shr shr' hsh srcNINFields,
    eqv_extractFullName r r' hr shr shr' hsh]

/-- Equivalence of best-match selection results: identical error messages or
equivalent chosen records. -/
def exIEquivB : Except String IEntry → Except String IEntry → Bool
  | .error m, .error m' => m == m'
  | .ok a, .ok b => ieEquivB a b
  | _, _ => false

theorem eqv_chooseBestAux (sim : Sim) (es en nm : String) (shr shr' : Option Entry)
    (hsh : optEntryEquivB shr shr' = true) :
    ∀ (l l' : List IEntry), listIEquivB l l' = true →
      ∀ (b b' : IEntry), ieEquivB b b' = true → ∀ bs,
        exIEquivB (chooseBestAux sim es en nm shr l b bs)
          (chooseBestAux sim es en nm shr' l' b' bs) = true := by
  intro l
  induction l with
  | nil =>
      intro l' hl b b' hb bs
      cases l' with
      | nil => simpa [chooseBestAux, exIEquivB] using hb
      | cons y ys => simp [listIEquivB] at hl
  | cons x xs ih =>
      intro l' hl b b' hb bs
      cases l' with
      | nil => obtain ⟨i, e⟩ := x; simp [listIEquivB] at hl
      | cons y ys =>
          simp only [listIEquivB, Bool.and_eq_true] at hl
          obtain ⟨hxy, hrest⟩ := hl
          have hxe : entryEquivB x.2 y.2 = true := by
            obtain ⟨i, e⟩ := x; obtain ⟨i', e'⟩ := y
            simp only [ieEquivB, Bool.and_eq_true] at hxy
            exact hxy.2
          have hsc := eqv_scoreRecord sim es en nm shr shr' hsh x.2 y.2 hxe
          unfold chooseBestAux
          rw [hsc]
          cases hres : scoreRecord sim es en nm shr' y.2 with
          | error m => simp [exIEquivB]
          | ok sc =>
              show exIEquivB
                (if bs < sc then chooseBestAux sim es en nm shr xs x sc
                  else chooseBestAux sim es en nm shr xs b bs)
                (if bs < sc then chooseBestAux sim es en nm shr' ys y sc
                  else chooseBestAux sim es en nm shr' ys b' bs) = true
              by_cases hlt : bs < sc
              · rw [if_pos hlt, if_pos hlt]
                exact ih ys hrest x y hxy sc
              · rw [if_neg hlt, if_neg hlt]
                exact ih ys hrest b b' hb bs

theorem eqv_chooseBest (sim : Sim) (es en nm : String) (shr shr' : Option Entry)
    (hsh : optEntryEquivB shr shr' = true) (l l' : List IEntry)
    (hl : listIEquivB l l' = true) :
    exIEquivB (chooseBest sim es en nm shr l) (chooseBest sim es en nm shr' l') = true := by
  cases l with
  | nil =>
      cases l' with
      | nil => simp [chooseBest, exIEquivB, ieEquivB, entryEquivB]
      | cons y ys => simp [listIEquivB] at hl
  | cons x xs =>
      cases l' with
      | nil => obtain ⟨i, e⟩ := x; simp [listIEquivB] at hl
      | cons y ys =>
          simp only [listIEquivB, Bool.and_eq_true] at hl
          unfold chooseBest
          exact eqv_chooseBestAux sim es en nm shr shr' hsh (x :: xs) (y :: ys)
            (by simp only [listIEquivB, Bool.and_eq_true]; exact hl) x y hl.1 0

theorem eqv_classify_status (sim : Sim) (es en nm : String) (shr shr' : Option Entry)
    (hsh : optEntryEquivB shr shr' = true) (best best' : IEntry)
    (hb : ieEquivB best best' = true) :
    (classify sim es en nm shr best).status = (classify sim es en nm shr' best').status := by
  have hbe : entryEquivB best.2 best'.2 = true := by
    obtain ⟨i, e⟩ := best; obtain ⟨i', e'⟩ := best'
    simp only [ieEquivB, Bool.and_eq_true] at hb
    exact hb.2
  have hss := eqv_extractField best.2 best'.2 hbe shr shr' hsh srcSSIDFields
  have hsn := eqv_extractField best.2 best'.2 hbe shr shr' hsh srcNINFields
  have hnm := eqv_extractFullName best.2 best'.2 hbe shr shr' hsh
  unfold classify
  simp only [hss, hsn, hnm]
  by_cases h : extractFullName best'.2 shr' = ""
  · rw [if_pos h, if_pos h]
  · rw [if_neg h, if_neg h]
    by_cases hc : (idAgree es (extractField best'.2 srcSSIDFields shr') &&
        idAgree en (extractField best'.2 srcNINFields shr') &&
        decide (SIMILARITY_THRESHOLD ≤ simOrDefault sim nm (extractFullName best'.2 shr'))) = true
    · rw [if_pos hc, if_pos hc]
    · rw [if_neg hc, if_neg hc]

theorem eqv_getMatchStatus_status (sim : Sim) (e e' : Entry) (he : entryEquivB e e' = true)
    (m1 m1' m2 m2' : SMap) (h1 : smapEquivB m1 m1' = true) (h2 : smapEquivB m2 m2' = true)
    (shr shr' ehr ehr' : Option Entry) (hsh : optEntryEquivB shr shr' = true)
    (heh : optEntryEquivB ehr ehr' = true) :
    (getMatchStatus sim e m1 m2 shr ehr).status =
      (getMatchStatus sim e' m1' m2' shr' ehr').status := by
  have hes := eqv_extractField e e' he ehr ehr' heh entrySSIDFields
  have hen := eqv_extractField e e' he ehr ehr' heh entryNINFields
  have hn := eqv_extractFullName e e' he ehr ehr' heh
  unfold getMatchStatus getMatchStatusCore
  simp only [hes, hen, hn]
  by_cases hname : extractFullName e' ehr' = ""
  · rw [if_pos hname, if_pos hname]
    rfl
  · rw [if_neg hname, if_neg hname]
    by_cases hids : extractField e' entrySSIDFields ehr' = "" ∧
        extractField e' entryNINFields ehr' = ""
    · rw [if_pos hids, if_pos hids]
    · rw [if_neg hids, if_neg hids]
      have hga := eqv_gatherMatches m1 m1' m2 m2' h1 h2
        (extractField e' entrySSIDFields ehr') (extractField e' entryNINFields ehr')
      cases hg1 : gatherMatches m1 m2 (extractField e' entrySSIDFields ehr')
          (extractField e' entryNINFields ehr') with
      | nil =>
          cases hg2 : gatherMatches m1' m2' (extractField e' entrySSIDFields ehr')
              (extractField e' entryNINFields ehr') with
          | nil => rfl
          | cons y ys => rw [hg1, hg2] at hga; simp [listIEquivB] at hga
      | cons x xs =>
          cases hg2 : gatherMatches m1' m2' (extractField e' entrySSIDFields ehr')
              (extractField e' entryNINFields ehr') with
          | nil =>
              obtain ⟨i, ex⟩ := x
              rw [hg1, hg2] at hga
              simp [listIEquivB] at hga
          | cons y ys =>
              rw [hg1, hg2] at hga
              show (unwrapResult (matchAgainst sim (extractField e' entrySSIDFields ehr')
                  (extractField e' entryNINFields ehr') (extractFullName e' ehr') shr
                  (x :: xs))).status =
                (unwrapResult (matchAgainst sim (extractField e' entrySSIDFields ehr')
                  (extractField e' entryNINFields ehr') (extractFullName e' ehr') shr'
                  (y :: ys))).status
              have hcb := eqv_chooseBest sim (extractField e' entrySSIDFields ehr')
                (extractField e' entryNINFields ehr') (extractFullName e' ehr') shr shr' hsh
                (x :: xs) (y :: ys) hga
              unfold matchAgainst
              cases hc1 : chooseBest sim (extractField e' entrySSIDFields ehr')
                  (extractField e' entryNINFields ehr') (extractFullName e' ehr') shr
                  (x :: xs) with
              | error m =>
                  cases hc2 : chooseBest sim (extractField e' entrySSIDFields ehr')
                      (extractField e' entryNINFields ehr') (extractFullName e' ehr') shr'
                      (y :: ys) with
                  | error m2 => rfl
                  | ok b => rw [hc1, hc2] at hcb; simp [exIEquivB] at hcb
              | ok b =>
                  cases hc2 : chooseBest sim (extractField e' entrySSIDFields ehr')
                      (extractField e' entryNINFields ehr') (extractFullName e' ehr') shr'
                      (y :: ys) with
                  | error m2 => rw [hc1, hc2] at hcb; simp [exIEquivB] at hcb
                  | ok b' =>
                      rw [hc1, hc2] at hcb
                      simp only [exIEquivB] at hcb
                      exact eqv_classify_status sim (extractField e' entrySSIDFields ehr')
                        (extractField e' entryNINFields ehr') (extractFullName e' ehr')
                        shr shr' hsh b b' hcb

/-- C9: for any two datasets (source and candidate, including the optional
header rows) that differ only in the letter case or surrounding whitespace
of field values, the engine produces the same match status for every
candidate. -/
theorem c9_normalization_invariance (sim : Sim) (src src' : List Entry)
    (cand cand' : Entry) (shr shr' ehr ehr' : Option Entry)
    (hsrc : listEntryEquivB src src' = true)
    (hcand : entryEquivB cand cand' = true)
    (hshr : optEntryEquivB shr shr' = true)
    (hehr : optEntryEquivB ehr ehr' = true) :
    (getMatchStatus sim cand (buildIndexes src shr).1 (buildIndexes src shr).2 shr ehr).status =
    (getMatchStatus sim cand' (buildIndexes src' shr').1 (buildIndexes src' shr').2
      shr' ehr').status := by
  obtain ⟨hm1, hm2⟩ := eqv_buildIndexes src src' hsrc shr shr' hshr
  exact eqv_getMatchStatus_status sim cand cand' hcand _ _ _ _ hm1 hm2
    shr shr' ehr ehr' hshr hehr

/-- Source of the C9 witness (clean form). -/
def exN1 : Entry := [("SSID", .str "A1"), ("FULL NAME", .str "John Smith")]

/-- Source of the C9 witness with case and surrounding-whitespace changes. -/
def exN1v : Entry := [("SSID", .str " a1 "), ("FULL NAME", .str "JOHN SMITH")]

/-- Candidate of the C9 witness (clean form). -/
def exN2 : Entry := [("SSID", .str "a1"), ("Full Name", .str "john smith")]

/-- Candidate of the C9 witness with case and whitespace changes. -/
def exN2v : Entry := [("SSID", .str "A1 "), ("Full Name", .str " John SMITH")]

/-- C9 witness: the invariance theorem applied to concrete datasets that
differ only in case and surrounding whitespace of their field values. -/
theorem c9_witness :
    (getMatchStatus exSimEq exN2 (buildIndexes [exN1] none).1
      (buildIndexes [exN1] none).2 none none).status =
    (getMatchStatus exSimEq exN2v (buildIndexes [exN1v] none).1
      (buildIndexes [exN1v] none).2 none none).status :=
  c9_normalization_invariance exSimEq [exN1] [exN1v] exN2 exN2v none none none none
    (by decide) (by decide) (by decide) (by decide)

end OptiMatch
